import Mathlib

/-!
# mkimg: the image build pipeline

A shallow embedding of `mkimg.go` and the properties of its build pipeline.

* `uint64` values are natural numbers; every `uint64` operation of the source
  is written with its wrap-around (`u64add`, `u64sub`, `u64mul`).
* A Go `panic` is an `Except.error`; the program never recovers from one.
* Calls into the operating system and into the disk / partition / filesystem
  libraries that act on the outside world are recorded, in order, in a trace of
  `Call`s, each with the error the callee reported.  What a callee reports is
  given by the environment `Env` and may depend on everything that was called
  before.
* The host file tree the program reads from (`os.Stat`, `os.ReadFile`,
  `os.ReadDir`) is a finite tree `HostNode`.
-/

namespace Mkimg

/-! ## Machine integers -/

/-- Addition of two `uint64` values. -/
def u64add (a b : Nat) : Nat := (a + b) % 2 ^ 64

/-- Subtraction of two `uint64` values. -/
def u64sub (a b : Nat) : Nat := (a % 2 ^ 64 + 2 ^ 64 - b % 2 ^ 64) % 2 ^ 64

/-- Multiplication of two `uint64` values. -/
def u64mul (a b : Nat) : Nat := (a * b) % 2 ^ 64

/-- The conversion `int64(x)` of a `uint64` value: the same 64 bits read as a
two's complement number. -/
def int64 (x : Nat) : Int :=
  if x % 2 ^ 64 < 2 ^ 63 then ((x % 2 ^ 64 : Nat) : Int) else ((x % 2 ^ 64 : Nat) : Int) - 2 ^ 64

/-! ## Data model -/

abbrev Bytes := List Nat

/-- Go `const MaxBootsectorSize = 440`. -/
def MaxBootsectorSize : Int := 440

/-- The `*os.File` held by a raw partition: its name and what `file.Stat()`
reports as its size (`none` when `Stat` fails). -/
structure OsFile where
  name : String
  statSize : Option Nat
  deriving DecidableEq

/-- Go `type FSPartitionContent struct`. -/
structure FSPartitionContent where
  src : String
  dest : String
  recursive : Bool
  deriving DecidableEq

/-- Go `type RawPartitionOperations struct`. -/
structure RawPartitionOperations where
  file : OsFile
  deriving DecidableEq

/-- Go `type FSPartitionOperations struct`. -/
structure FSPartitionOperations where
  partsize : Nat
  fsType : Nat
  contents : List FSPartitionContent
  deriving DecidableEq

/-- The two implementations of `type PartitionOperations interface`.  An
interface value holds its own copy of the struct it was made from. -/
inductive PartitionOperations where
  | raw (part : RawPartitionOperations)
  | fs (part : FSPartitionOperations)
  deriving DecidableEq

/-- Go `type Partition struct`. -/
structure Partition where
  name : String
  typeUUID : String
  ops : PartitionOperations
  deriving DecidableEq

/-- Go `type Configuration struct`. -/
structure Configuration where
  name : String
  dest : String
  pmbr : Bool
  sectorSize : Nat
  firstSector : Nat
  partitions : List Partition
  bootsector : String
  deriving DecidableEq

/-- The fields of `gpt.Partition` that `BuildImage` fills in. -/
structure GptPartition where
  Start : Nat
  End : Nat
  TypeGUID : String
  Name : String
  deriving DecidableEq

/-- The fields of `gpt.Table` that `BuildImage` fills in. -/
structure GptTable where
  Partitions : List GptPartition
  ProtectiveMBR : Bool
  deriving DecidableEq

/-! ## The host file tree -/

mutual
/-- What lives at a path of the host: a file (readable or not) or a directory
(listable or not). -/
inductive HostNode : Type
  | file (data : Bytes)
  | unreadableFile
  | dir (entries : DirEntries)
  | unreadableDir
/-- The listing of a directory, in the order `os.ReadDir` returns it. -/
inductive DirEntries : Type
  | nil
  | cons (name : String) (node : HostNode) (rest : DirEntries)
end

/-- The call `stat.IsDir()` / `file.IsDir()`. -/
def HostNode.IsDir : HostNode → Bool
  | .dir _ => true
  | .unreadableDir => true
  | _ => false

/-! ## Panics, external calls and the environment -/

/-- The errors the program tells apart: `os.IsNotExist(err)` or not. -/
inductive Err where
  | notExist
  | other
  deriving DecidableEq

/-- The calls that act on the outside world. -/
inductive Op where
  /-- The call `os.Remove(imagePath)` -/
  | osRemove (path : String)
  /-- The call `os.MkdirAll(config.dest, 0o755)` -/
  | osMkdirAll (path : String)
  /-- The call `diskfs.Create(imagePath, size, diskfs.Raw, sectorSize)` -/
  | diskfsCreate (path : String) (size : Int) (sectorSize : Int)
  /-- The call `img.Partition(&gpt.Table{...})` -/
  | partition (table : GptTable)
  /-- The call `img.WritePartitionContents(index, part.file)` -/
  | writePartitionContents (index : Nat) (file : String)
  /-- The call `part.file.Close()` -/
  | osFileClose (file : String)
  /-- The call `img.CreateFilesystem(disk.FilesystemSpec{Partition: index, FSType: fsType})` -/
  | createFilesystem (index : Nat) (fsType : Nat)
  /-- The call `fs.Mkdir(path)` on the filesystem of partition `index` -/
  | fsMkdir (index : Nat) (path : String)
  /-- The call `fs.OpenFile(path, os.O_CREATE|os.O_RDWR)` on the filesystem of partition `index` -/
  | fsOpenFile (index : Nat) (path : String)
  /-- The call `file.Write(data)` on the file opened at `path` -/
  | fsFileWrite (index : Nat) (path : String) (data : Bytes)
  /-- The call `file.Close()` on the file opened at `path` -/
  | fsFileClose (index : Nat) (path : String)
  /-- The call `img.File.WriteAt(data, off)` -/
  | writeAt (data : Bytes) (off : Nat)
  deriving DecidableEq

/-- One external call together with the error it returned (`none` is `nil`). -/
structure Call where
  op : Op
  err : Option Err
  deriving DecidableEq

/-- The values the program panics with. -/
inductive Panic where
  /-- the run-time panic of an integer division by zero -/
  | divideByZero
  /-- The value of `panic(err)` for the error of a read of the host (`Stat`, `ReadFile`, `ReadDir`) -/
  | hostError (path : String)
  /-- The value of `panic(err)` for the error an external call returned -/
  | callError (op : Op) (err : Err)
  /-- The value of `panic("expected a file, got directory")` -/
  | expectedFile
  /-- The value of `panic(fmt.Errorf("bootsector exceeds maximum size of 440 bytes (%d bytes)", n))` -/
  | bootsectorTooLarge (n : Int)
  deriving DecidableEq

/-- The outside world as the program sees it. -/
structure Env where
  /-- The function `path.Join` of two elements -/
  pathJoin : String → String → String
  /-- what `os.Stat` finds at a path (`none`: it returns an error) -/
  stat : String → Option HostNode
  /-- the error an external call returns, given the calls made before it -/
  respond : List Call → Op → Option Err

/-- A computation that makes external calls and may panic: from the trace so
far to the result and the trace afterwards. -/
def Build (α : Type) : Type := List Call → Except Panic α × List Call

/-- Sequencing of two computations; a panic ends the computation. -/
def Build.bind {α β : Type} (m : Build α) (f : α → Build β) : Build β :=
  fun tr =>
    match m tr with
    | (.ok a, tr1) => f a tr1
    | (.error p, tr1) => (.error p, tr1)

instance : Monad Build where
  pure a := fun tr => (.ok a, tr)
  bind := Build.bind

/-- The statement `panic(p)`. -/
def Build.panic {α : Type} (p : Panic) : Build α := fun tr => (.error p, tr)

/-- Run a computation that makes no external call. -/
def Build.lift {α : Type} (e : Except Panic α) : Build α := fun tr => (e, tr)

/-- Make an external call: it is appended to the trace with the error the
environment returns for it, and that error is the result. -/
def Build.call (env : Env) (op : Op) : Build (Option Err) :=
  fun tr => (.ok (env.respond tr op), tr ++ [⟨op, env.respond tr op⟩])

/-- The statement `if err != nil { panic(err) }` after the call `op`. -/
def Build.check (op : Op) : Option Err → Build Unit
  | none => pure ()
  | some e => Build.panic (.callError op e)

/-! ## The program -/

/-- Go `func Ceil(value uint64, to uint64) uint64`. -/
def Ceil (value to_ : Nat) : Except Panic Nat :=
  if to_ = 0 then .error .divideByZero
  else .ok (u64mul (u64sub (u64add value to_) 1 / to_) to_)

/-- Go `func (part RawPartitionOperations) size() uint64`. -/
def RawPartitionOperations.size (part : RawPartitionOperations) : Except Panic Nat :=
  match part.file.statSize with
  | none => .error (.hostError part.file.name)
  | some n => .ok (n % 2 ^ 64)

/-- Go `func (part FSPartitionOperations) size() uint64`. -/
def FSPartitionOperations.size (part : FSPartitionOperations) : Except Panic Nat :=
  .ok part.partsize

/-- The method `size()` of the interface. -/
def PartitionOperations.size : PartitionOperations → Except Panic Nat
  | .raw part => part.size
  | .fs part => part.size

/-- Go `func (part RawPartitionOperations) write(img *disk.Disk, index int)`: both
results of `WritePartitionContents` and the result of `Close` are dropped. -/
def RawPartitionOperations.write (env : Env) (part : RawPartitionOperations) (index : Nat) :
    Build Unit := do
  let _ ← Build.call env (.writePartitionContents index part.file.name)
  let _ ← Build.call env (.osFileClose part.file.name)
  pure ()

/-- The call `os.ReadFile` of the node at `path`. -/
def readFile (path : String) : HostNode → Except Panic Bytes
  | .file data => .ok data
  | _ => .error (.hostError path)

/-- The call `os.ReadDir` of the node at `path`. -/
def readDir (path : String) : HostNode → Except Panic DirEntries
  | .dir entries => .ok entries
  | _ => .error (.hostError path)

/-- The closure `writeFile` of `FSPartitionOperations.write`, for the
filesystem of partition `index`; `node` is what the host has at `src`. -/
def writeFile (env : Env) (index : Nat) (src : String) (node : HostNode) (dest : String) :
    Build Unit := do
  let data ← Build.lift (readFile src node)
  let err ← Build.call env (.fsOpenFile index dest)
  Build.check (.fsOpenFile index dest) err
  let err ← Build.call env (.fsFileWrite index dest data)
  Build.check (.fsFileWrite index dest data) err
  let _ ← Build.call env (.fsFileClose index dest)
  pure ()

mutual
/-- The closure `writeDir` of `FSPartitionOperations.write`; `node` is what the
host has at `srcPath`, so `os.ReadDir(srcPath)` lists its entries. -/
def writeDir (env : Env) (index : Nat) (srcPath : String) (node : HostNode) (destPath : String) :
    Build Unit :=
  match node with
  | .dir files => writeDirLoop env index srcPath files destPath
  | _ => Build.panic (.hostError srcPath)
/-- The loop `for _, file := range files` of `writeDir`. -/
def writeDirLoop (env : Env) (index : Nat) (srcPath : String) (files : DirEntries)
    (destPath : String) : Build Unit :=
  match files with
  | .nil => pure ()
  | .cons name file rest => do
    let _ ← Build.call env (.fsMkdir index destPath)
    (if file.IsDir then
      writeDir env index (env.pathJoin srcPath name) file (env.pathJoin destPath name)
    else
      writeFile env index (env.pathJoin srcPath name) file (env.pathJoin destPath name))
    writeDirLoop env index srcPath rest destPath
end

/-- The body of the loop `for _, content := range part.contents` of
`FSPartitionOperations.write`, for one `content`. -/
def writeContent (env : Env) (index : Nat) (content : FSPartitionContent) : Build Unit :=
  match env.stat content.src with
  | none => Build.panic (.hostError content.src)
  | some stat =>
    if stat.IsDir then
      if !content.recursive then
        Build.panic .expectedFile
      else
        writeDir env index content.src stat content.dest
    else
      writeFile env index content.src stat content.dest

/-- The loop `for _, content := range part.contents` of
`FSPartitionOperations.write`. -/
def writeContents (env : Env) (index : Nat) : List FSPartitionContent → Build Unit
  | [] => pure ()
  | content :: rest => do
    writeContent env index content
    writeContents env index rest

/-- Go `func (part FSPartitionOperations) write(img *disk.Disk, index int)`. -/
def FSPartitionOperations.write (env : Env) (part : FSPartitionOperations) (index : Nat) :
    Build Unit := do
  let err ← Build.call env (.createFilesystem index part.fsType)
  Build.check (.createFilesystem index part.fsType) err
  writeContents env index part.contents

/-- The method `write(img, index)` of the interface. -/
def PartitionOperations.write (env : Env) : PartitionOperations → Nat → Build Unit
  | .raw part, index => part.write env index
  | .fs part, index => part.write env index

/-- The loop of `BuildImage` that adds up the image size, started with
`size = config.sectorSize * config.firstSector`. -/
def BuildImage.sizeLoop (sectorSize : Nat) : Nat → List Partition → Except Panic Nat
  | size, [] => .ok size
  | size, partition :: rest => do
    let partSize ← partition.ops.size
    let ceiled ← Ceil partSize sectorSize
    BuildImage.sizeLoop sectorSize (u64add size ceiled) rest

/-- The value of `size` that `BuildImage` computes. -/
def BuildImage.size (config : Configuration) : Except Panic Nat :=
  BuildImage.sizeLoop config.sectorSize (u64mul config.sectorSize config.firstSector)
    config.partitions

/-- The loop of `BuildImage` that fills `gptPartitions`, with the running
`currentSector`. -/
def BuildImage.partitionLoop (sectorSize : Nat) :
    Nat → List Partition → Except Panic (List GptPartition)
  | _, [] => .ok []
  | currentSector, partition :: rest => do
    let partSize ← partition.ops.size
    let ceiled ← Ceil partSize sectorSize
    let sizeInSectors := ceiled / sectorSize
    let gptPartition : GptPartition :=
      { Start := currentSector
        End := u64add currentSector sizeInSectors
        TypeGUID := partition.typeUUID
        Name := partition.name }
    let more ← BuildImage.partitionLoop sectorSize (u64add currentSector sizeInSectors) rest
    pure (gptPartition :: more)

/-- The value of `gptPartitions` that `BuildImage` computes. -/
def BuildImage.gptPartitions (config : Configuration) : Except Panic (List GptPartition) :=
  BuildImage.partitionLoop config.sectorSize config.firstSector config.partitions

/-- The loop `for i, partition := range config.partitions` of `BuildImage` that
writes the partitions, from position `i` on. -/
def BuildImage.writeLoop (env : Env) : Nat → List Partition → Build Unit
  | _, [] => pure ()
  | i, partition :: rest => do
    partition.ops.write env (i + 1)
    BuildImage.writeLoop env (i + 1) rest

/-- The last statement of `BuildImage`: `if config.bootsector != "" { ... }`. -/
def BuildImage.bootsectorStep (env : Env) (config : Configuration) : Build Unit :=
  if config.bootsector ≠ "" then do
    let bootsector ← Build.lift
      (match env.stat config.bootsector with
        | none => .error (.hostError config.bootsector)
        | some node => readFile config.bootsector node)
    let bootsectorSize : Int := bootsector.length
    if bootsectorSize > MaxBootsectorSize then
      Build.panic (.bootsectorTooLarge bootsectorSize)
    else do
      let err ← Build.call env (.writeAt bootsector 0)
      Build.check (.writeAt bootsector 0) err
  else
    pure ()

/-- Go `func BuildImage(config Configuration)`.  The console messages are left
out. -/
def BuildImage (env : Env) (config : Configuration) : Build Unit := do
  let imagePath := env.pathJoin config.dest config.name
  let err ← Build.call env (.osRemove imagePath)
  (match err with
    | some .other => Build.panic (.callError (.osRemove imagePath) .other)
    | _ => pure ())
  let size ← Build.lift (BuildImage.size config)
  let _ ← Build.call env (.osMkdirAll config.dest)
  let err ← Build.call env (.diskfsCreate imagePath (int64 size) (int64 config.sectorSize))
  Build.check (.diskfsCreate imagePath (int64 size) (int64 config.sectorSize)) err
  let gptPartitions ← Build.lift (BuildImage.gptPartitions config)
  let table : GptTable := { Partitions := gptPartitions, ProtectiveMBR := config.pmbr }
  let err ← Build.call env (.partition table)
  Build.check (.partition table) err
  BuildImage.writeLoop env 0 config.partitions
  BuildImage.bootsectorStep env config

/-! ## The configuration script's host functions -/

/-- The state the host functions registered in `main` work on: the shared
`config`, and for every call of `NewFsPartition` made so far the local variable
`fspart` that the closures `PutFile` and `PutDir` of that call captured. -/
structure ScriptState where
  config : Configuration
  fspart : List FSPartitionOperations

/-- The host function `NewFsPartition`: `fspart` is built, a copy of it goes
into the `ops` interface value of the appended partition, and the returned
table (here the position of the captured variable) carries the two closures
over the variable `fspart` itself. -/
def NewFsPartition (st : ScriptState) (name typeUUID : String) (partsize fsType : Nat) :
    ScriptState × Nat :=
  let fspart : FSPartitionOperations :=
    { partsize := partsize % 2 ^ 64, fsType := fsType, contents := [] }
  let partition : Partition := { name := name, typeUUID := typeUUID, ops := .fs fspart }
  ({ config := { st.config with partitions := st.config.partitions ++ [partition] }
     fspart := st.fspart ++ [fspart] },
   st.fspart.length)

/-- The closure `PutFile` of the table `handle`:
`fspart.contents = append(fspart.contents, FSPartitionContent{src, dest, recursive: false})`. -/
def PutFile (st : ScriptState) (handle : Nat) (src dest : String) : ScriptState :=
  { st with
    fspart := st.fspart.modify
      (fun fspart =>
        { fspart with contents := fspart.contents ++ [{ src := src, dest := dest, recursive := false }] })
      handle }

/-- The closure `PutDir` of the table `handle`:
`fspart.contents = append(fspart.contents, FSPartitionContent{src, dest, recursive: true})`. -/
def PutDir (st : ScriptState) (handle : Nat) (src dest : String) : ScriptState :=
  { st with
    fspart := st.fspart.modify
      (fun fspart =>
        { fspart with contents := fspart.contents ++ [{ src := src, dest := dest, recursive := true }] })
      handle }

/-- The `config` that `main` starts the script with. -/
def initialConfig (dest : String) : Configuration :=
  { dest := dest, name := "default.img", pmbr := false, sectorSize := 512, firstSector := 2048,
    partitions := [], bootsector := "" }

/-! ## The bytes of the image file -/

/-- The call `img.File.WriteAt(b, off)` when it succeeds: the bytes `b` replace the
bytes of the file from offset `off` on, the file growing (zero filled) as far
as needed; no other byte changes. -/
def WriteAt (img : Bytes) (b : Bytes) (off : Nat) : Bytes :=
  img.take off ++ List.replicate (off - img.length) 0 ++ b ++ img.drop (off + b.length)

/-- The image file after one call.  A `WriteAt` that returned no error acts as
`WriteAt`; what every other call does to the bytes is the libraries' business
and given by `codec`. -/
def imageStep (codec : Bytes → Call → Bytes) (img : Bytes) (c : Call) : Bytes :=
  match c with
  | ⟨.writeAt b off, none⟩ => WriteAt img b off
  | c => codec img c

/-- The image file after a trace of calls, from the bytes `img`. -/
def imageAfter (codec : Bytes → Call → Bytes) (img : Bytes) (trace : List Call) : Bytes :=
  trace.foldl (imageStep codec) img

/-! ## Notions used to state the properties -/

/-- Every run of `m` extends the trace it is given, and every call it adds
satisfies `P`. -/
def Emits {α : Type} (P : Call → Prop) (m : Build α) : Prop :=
  ∀ tr, ∃ evs, (m tr).2 = tr ++ evs ∧ ∀ c ∈ evs, P c

/-- The calls made while the partitions are written. -/
def Op.isContent : Op → Prop
  | .writePartitionContents _ _ => True
  | .osFileClose _ => True
  | .createFilesystem _ _ => True
  | .fsMkdir _ _ => True
  | .fsOpenFile _ _ => True
  | .fsFileWrite _ _ _ => True
  | .fsFileClose _ _ => True
  | _ => False

/-- What `BuildImage` may call, and with which arguments. -/
def BuildImage.Allowed (env : Env) (config : Configuration) (c : Call) : Prop :=
  match c.op with
  | .osRemove path => path = env.pathJoin config.dest config.name
  | .osMkdirAll path => path = config.dest
  | .diskfsCreate path size sectorSize =>
    path = env.pathJoin config.dest config.name ∧ sectorSize = int64 config.sectorSize ∧
      ∃ total, BuildImage.size config = .ok total ∧ size = int64 total
  | .partition table =>
    BuildImage.gptPartitions config = .ok table.Partitions ∧ table.ProtectiveMBR = config.pmbr
  | .writeAt data off =>
    off = 0 ∧ env.stat config.bootsector = some (.file data) ∧
      ¬ ((data.length : Int) > MaxBootsectorSize)
  | _ => True

mutual
/-- The files below a node with their paths relative to it, in listing order. -/
def HostNode.files : HostNode → List (List String × Bytes)
  | .file data => [([], data)]
  | .dir entries => entries.files
  | .unreadableFile => []
  | .unreadableDir => []
/-- The files below the entries of a directory with their paths relative to it. -/
def DirEntries.files : DirEntries → List (List String × Bytes)
  | .nil => []
  | .cons name node rest => (node.files.map fun f => (name :: f.1, f.2)) ++ rest.files
end

mutual
/-- Every file below the node can be read and every directory listed. -/
def HostNode.Readable : HostNode → Prop
  | .file _ => True
  | .dir entries => entries.Readable
  | .unreadableFile => False
  | .unreadableDir => False
/-- Every file below the entries can be read and every directory listed. -/
def DirEntries.Readable : DirEntries → Prop
  | .nil => True
  | .cons _ node rest => node.Readable ∧ rest.Readable
end

/-- The destination of the relative path `p` below `dest`: `path.Join` applied
along `p`. -/
def joinRel (env : Env) (dest : String) (p : List String) : String := p.foldl env.pathJoin dest

/-- The three calls that create and write one file. -/
def fileCalls (env : Env) (index : Nat) (dest : String) (f : List String × Bytes) : List Call :=
  [⟨.fsOpenFile index (joinRel env dest f.1), none⟩,
   ⟨.fsFileWrite index (joinRel env dest f.1) f.2, none⟩,
   ⟨.fsFileClose index (joinRel env dest f.1), none⟩]

/-- The `fs.Mkdir` calls. -/
def Op.isMkdir : Op → Bool
  | .fsMkdir _ _ => true
  | _ => false

/-- The calls `evs` materialize the files `fs` below `dest`: apart from `Mkdir`
calls they are, file by file and in order, the create-and-write calls of the
files, and each of these comes after a `Mkdir` of every directory above the
file. -/
def Materialized (env : Env) (index : Nat) (dest : String) (fs : List (List String × Bytes))
    (evs : List Call) : Prop :=
  evs.filter (fun c => !c.op.isMkdir) = fs.flatMap (fileCalls env index dest) ∧
  ∀ p data, (p, data) ∈ fs → ∃ pre post,
    evs = pre ++ fileCalls env index dest (p, data) ++ post ∧
    ∀ q, q <+: p → q ≠ p → ⟨.fsMkdir index (joinRel env dest q), none⟩ ∈ pre

/-- Every panic of `m` satisfies `Q`. -/
def PanicsOnly {α : Type} (Q : Panic → Prop) (m : Build α) : Prop :=
  ∀ tr p, (m tr).1 = .error p → Q p

/-- The first call of the `write` of partition `index`. -/
def Op.startsPartition (index : Nat) : Op → Prop
  | .writePartitionContents i _ => i = index
  | .createFilesystem i _ => i = index
  | _ => False

/-- A small host file tree: boot-sector files of 441, 440 and 3 bytes, a text
file, an empty directory, and a directory `tree` holding the file `a`, the
directory `sub` with the file `b`, and the empty directory `empty`. -/
def exampleHost (path : String) : Option HostNode :=
  if path = "boot441.bin" then some (.file (List.replicate 441 0))
  else if path = "boot440.bin" then some (.file (List.replicate 440 144))
  else if path = "boot.bin" then some (.file [235, 254, 144])
  else if path = "local.txt" then some (.file [104, 105])
  else if path = "empty" then some (.dir .nil)
  else if path = "tree" then
    some (.dir (.cons "a" (.file [7])
      (.cons "sub" (.dir (.cons "b" (.file [8]) .nil)) (.cons "empty" (.dir .nil) .nil))))
  else none

/-- An environment over `exampleHost` in which every external call succeeds
and `path.Join` puts a slash between its two elements. -/
def exampleEnv : Env :=
  { pathJoin := fun a b => a ++ "/" ++ b
    stat := exampleHost
    respond := fun _ _ => none }

/-- The environment `exampleEnv`, except that streaming into partition 1
(`WritePartitionContents(1, ...)`) reports an error. -/
def failingStreamEnv : Env :=
  { exampleEnv with
    respond := fun _ op =>
      match op with
      | .writePartitionContents 1 _ => some .other
      | _ => none }

/-- The default configuration with one raw partition whose file has 1000 bytes. -/
def rawConfig : Configuration :=
  { initialConfig "out" with
    partitions := [⟨"boot", "C12A7328-F81F-11D2-BA4B-00A0C93EC93B", .raw ⟨⟨"kernel.bin", some 1000⟩⟩⟩] }

/-- The default configuration with a raw partition of 1000 bytes followed by a
filesystem partition of 16 MiB. -/
def twoPartConfig : Configuration :=
  { initialConfig "out" with
    partitions :=
      [⟨"boot", "C12A7328-F81F-11D2-BA4B-00A0C93EC93B", .raw ⟨⟨"kernel.bin", some 1000⟩⟩⟩,
       ⟨"DATA", "00000000-0000-0000-0000-000000000000", .fs ⟨16777216, 0, []⟩⟩] }

/-- The default configuration with two raw partitions and a boot sector of
three bytes. -/
def twoRawConfig : Configuration :=
  { initialConfig "out" with
    partitions :=
      [⟨"first", "00000000-0000-0000-0000-000000000000", .raw ⟨⟨"a.bin", some 1000⟩⟩⟩,
       ⟨"second", "00000000-0000-0000-0000-000000000000", .raw ⟨⟨"b.bin", some 600⟩⟩⟩]
    bootsector := "boot.bin" }

/-- The default configuration with no partition and first sector `2 ^ 54`. -/
def hugeConfig : Configuration :=
  { initialConfig "out" with firstSector := 2 ^ 54 }

/-- The script `p = NewFsPartition("DATA", PartType.Unused, Size.MB*16, FsType.Fat32)`
followed by `p:PutFile("local.txt", "/remote.txt")`, run from the initial
configuration of `main`. -/
def putFileScript : ScriptState :=
  let created := NewFsPartition ⟨initialConfig "out", []⟩ "DATA"
    "00000000-0000-0000-0000-000000000000" (1024 * 1024 * 16) 0
  PutFile created.1 created.2 "local.txt" "/remote.txt"

/-! ## Properties -/

theorem two64 : (2:Nat) ^ 64 = 18446744073709551616 := by norm_num

theorem two63 : (2:Nat) ^ 63 = 9223372036854775808 := by norm_num

/-- Without overflow `Ceil` rounds up with natural-number arithmetic. -/
theorem Ceil_of_no_overflow (value S : Nat) (hS : 0 < S) (h : value + S - 1 < 2 ^ 64) :
    Ceil value S = .ok ((value + S - 1) / S * S) := by
  have hne : S ≠ 0 := by omega
  have h1 : u64sub (u64add value S) 1 = value + S - 1 := by
    unfold u64sub u64add
    simp only [two64] at *
    omega
  have h2 : (value + S - 1) / S * S ≤ value + S - 1 := Nat.div_mul_le_self _ _
  unfold Ceil
  rw [if_neg hne, h1]
  unfold u64mul
  rw [Nat.mod_eq_of_lt (by omega)]

/-- The sector count `(x + S - 1) / S` is the ceiling of the quotient `x / S`. -/
theorem sectors_eq_ceil (x S : Nat) (hS : 0 < S) :
    (x + S - 1) / S = ⌈(x : ℚ) / (S : ℚ)⌉₊ := by
  have hSq : (0 : ℚ) < S := by exact_mod_cast hS
  have key : ∀ n : Nat, (x + S - 1) / S ≤ n ↔ ⌈(x : ℚ) / (S : ℚ)⌉₊ ≤ n := by
    intro n
    rw [Nat.ceil_le, div_le_iff₀ hSq]
    have : ((x : ℚ) ≤ (n : ℚ) * (S : ℚ)) ↔ x ≤ n * S := by exact_mod_cast Iff.rfl
    rw [this, ← Nat.lt_succ_iff, Nat.div_lt_iff_lt_mul hS, Nat.succ_mul]
    omega
  exact le_antisymm ((key _).2 le_rfl) ((key _).1 le_rfl)

/-- The rounded size `(x + S - 1) / S * S` is the least multiple of `S` that is
at least `x`. -/
theorem rounded_isLeast (x S : Nat) (hS : 0 < S) :
    IsLeast {m : Nat | S ∣ m ∧ x ≤ m} ((x + S - 1) / S * S) := by
  constructor
  · refine ⟨Dvd.intro_left _ rfl, ?_⟩
    have := Nat.div_add_mod (x + S - 1) S
    have := Nat.mod_lt (x + S - 1) hS
    have : S * ((x + S - 1) / S) = (x + S - 1) / S * S := Nat.mul_comm _ _
    omega
  · rintro m ⟨⟨k, rfl⟩, hk⟩
    rw [Nat.mul_comm S k]
    apply Nat.mul_le_mul_right
    rw [← Nat.lt_succ_iff, Nat.div_lt_iff_lt_mul hS, Nat.succ_mul, Nat.mul_comm k S]
    omega

/-- Whatever the sizes, `Ceil` returns a multiple of a sector size that divides `2 ^ 64`. -/
theorem Ceil_dvd (value S : Nat) (hS : 0 < S) (hdvd : S ∣ 2 ^ 64) :
    ∃ c, Ceil value S = .ok c ∧ S ∣ c := by
  have hne : S ≠ 0 := by omega
  refine ⟨_, by unfold Ceil; rw [if_neg hne], ?_⟩
  unfold u64mul
  exact (Nat.dvd_mod_iff hdvd).2 (Dvd.intro_left _ rfl)

theorem sizeLoop_of_no_overflow (S : Nat) (hS : 0 < S) :
    ∀ (parts : List Partition) (sizes : List Nat) (acc : Nat),
      parts.map (fun p => p.ops.size) = sizes.map Except.ok →
      (∀ s ∈ sizes, s + S - 1 < 2 ^ 64) →
      acc + (sizes.map fun s => (s + S - 1) / S * S).sum < 2 ^ 64 →
      BuildImage.sizeLoop S acc parts
        = .ok (acc + (sizes.map fun s => (s + S - 1) / S * S).sum) := by
  intro parts
  induction parts with
  | nil =>
    intro sizes acc hsz _ _
    cases sizes with
    | nil => simp [BuildImage.sizeLoop]
    | cons s ss => simp at hsz
  | cons p ps ih =>
    intro sizes acc hsz hno hsum
    cases sizes with
    | nil => simp at hsz
    | cons s ss =>
      simp only [List.map_cons, List.cons.injEq] at hsz
      simp only [List.map_cons, List.sum_cons] at hsum ⊢
      have hc := Ceil_of_no_overflow s S hS (hno s (List.mem_cons_self _ _))
      have hadd : u64add acc ((s + S - 1) / S * S) = acc + (s + S - 1) / S * S := by
        unfold u64add
        exact Nat.mod_eq_of_lt (by omega)
      have := ih ss (acc + (s + S - 1) / S * S) hsz.2
        (fun t ht => hno t (List.mem_cons_of_mem _ ht)) (by omega)
      simp only [BuildImage.sizeLoop, hsz.1, hc, hadd, this, bind, Except.bind]
      rw [Nat.add_assoc]

theorem sizeLoop_dvd (S : Nat) (hS : 0 < S) (hdvd : S ∣ 2 ^ 64) :
    ∀ (parts : List Partition) (sizes : List Nat) (acc : Nat),
      parts.map (fun p => p.ops.size) = sizes.map Except.ok → S ∣ acc →
      ∃ total, BuildImage.sizeLoop S acc parts = .ok total ∧ S ∣ total := by
  intro parts
  induction parts with
  | nil =>
    intro sizes acc _ hacc
    exact ⟨acc, by simp [BuildImage.sizeLoop], hacc⟩
  | cons p ps ih =>
    intro sizes acc hsz hacc
    cases sizes with
    | nil => simp at hsz
    | cons s ss =>
      simp only [List.map_cons, List.cons.injEq] at hsz
      obtain ⟨c, hc, hcd⟩ := Ceil_dvd s S hS hdvd
      have hadd : S ∣ u64add acc c := by
        unfold u64add
        exact (Nat.dvd_mod_iff hdvd).2 (Nat.dvd_add hacc hcd)
      obtain ⟨total, ht, htd⟩ := ih ss (u64add acc c) hsz.2 hadd
      exact ⟨total, by simp only [BuildImage.sizeLoop, hsz.1, hc, ht, bind, Except.bind], htd⟩

theorem partitionLoop_of_no_overflow (S : Nat) (hS : 0 < S) :
    ∀ (parts : List Partition) (sizes : List Nat) (cur : Nat),
      parts.map (fun p => p.ops.size) = sizes.map Except.ok →
      (∀ s ∈ sizes, s + S - 1 < 2 ^ 64) →
      cur + (sizes.map fun s => (s + S - 1) / S).sum < 2 ^ 64 →
      ∃ gs, BuildImage.partitionLoop S cur parts = .ok gs ∧
        gs.length = parts.length ∧
        (∀ g, gs[0]? = some g → g.Start = cur) ∧
        (∀ (i : Nat) (g : GptPartition), gs[i]? = some g → ∃ p s, parts[i]? = some p ∧ sizes[i]? = some s ∧
          g.Name = p.name ∧ g.TypeGUID = p.typeUUID ∧
          Ceil s S = .ok ((s + S - 1) / S * S) ∧
          g.End = g.Start + (s + S - 1) / S * S / S) ∧
        (∀ (i : Nat) (g g2 : GptPartition), gs[i]? = some g → gs[i + 1]? = some g2 →
          g2.Start = g.End) := by
  intro parts
  induction parts with
  | nil =>
    intro sizes cur _ _ _
    exact ⟨[], by simp [BuildImage.partitionLoop]⟩
  | cons p ps ih =>
    intro sizes cur hsz hno hsum
    cases sizes with
    | nil => simp at hsz
    | cons s ss =>
      simp only [List.map_cons, List.cons.injEq] at hsz
      simp only [List.map_cons, List.sum_cons] at hsum
      have hc := Ceil_of_no_overflow s S hS (hno s (List.mem_cons_self _ _))
      have hdiv : (s + S - 1) / S * S / S = (s + S - 1) / S := Nat.mul_div_cancel _ hS
      have hadd : u64add cur ((s + S - 1) / S * S / S) = cur + (s + S - 1) / S := by
        unfold u64add
        rw [hdiv]
        exact Nat.mod_eq_of_lt (by omega)
      obtain ⟨more, hm, hlen, hfirst, hall, hadj⟩ := ih ss (cur + (s + S - 1) / S) hsz.2
        (fun t ht => hno t (List.mem_cons_of_mem _ ht)) (by omega)
      refine ⟨⟨cur, cur + (s + S - 1) / S, p.typeUUID, p.name⟩ :: more, by simp only [BuildImage.partitionLoop, hsz.1, hc, hadd, hm, bind, Except.bind,
        pure, Except.pure], by simp [hlen], by simp, ?_, ?_⟩
      · intro i g hg
        cases i with
        | zero =>
          simp only [List.getElem?_cons_zero, Option.some.injEq] at hg
          subst hg
          exact ⟨p, s, by simp, by simp, rfl, rfl, hc, by simp [hdiv]⟩
        | succ j =>
          simp only [List.getElem?_cons_succ] at hg ⊢
          exact hall j g hg
      · intro i g g2 hg hg2
        cases i with
        | zero =>
          simp only [List.getElem?_cons_zero, Option.some.injEq, zero_add,
            List.getElem?_cons_succ] at hg hg2
          subst hg
          exact hfirst g2 hg2
        | succ j =>
          simp only [List.getElem?_cons_succ] at hg hg2
          exact hadj j g g2 hg hg2

theorem emits_pure {α : Type} (P : Call → Prop) (a : α) : Emits P (pure a : Build α) :=
  fun tr => ⟨[], by simp [Pure.pure], by simp⟩

theorem emits_panic {α : Type} (P : Call → Prop) (p : Panic) : Emits P (Build.panic p : Build α) :=
  fun tr => ⟨[], by simp [Build.panic], by simp⟩

theorem emits_lift {α : Type} (P : Call → Prop) (e : Except Panic α) : Emits P (Build.lift e) :=
  fun tr => ⟨[], by simp [Build.lift], by simp⟩

theorem emits_call (P : Call → Prop) (env : Env) (op : Op) (h : ∀ e, P ⟨op, e⟩) :
    Emits P (Build.call env op) :=
  fun tr => ⟨[⟨op, env.respond tr op⟩], by simp [Build.call], by simpa using h _⟩

theorem emits_check (P : Call → Prop) (op : Op) (err : Option Err) :
    Emits P (Build.check op err) := by
  cases err with
  | none => exact emits_pure P ()
  | some e => exact emits_panic P _

theorem emits_bind {α β : Type} {P : Call → Prop} {m : Build α} {f : α → Build β}
    (hm : Emits P m) (hf : ∀ a, Emits P (f a)) : Emits P (m >>= f) := by
  intro tr
  obtain ⟨evs, h1, h2⟩ := hm tr
  show ∃ evs, (Build.bind m f tr).2 = tr ++ evs ∧ _
  unfold Build.bind
  rcases hmt : m tr with ⟨r, tr1⟩
  rw [hmt] at h1
  simp only at h1
  subst h1
  cases r with
  | error p => exact ⟨evs, rfl, h2⟩
  | ok a =>
    obtain ⟨evs2, h3, h4⟩ := hf a (tr ++ evs)
    refine ⟨evs ++ evs2, by simp [h3], ?_⟩
    intro c hc
    rcases List.mem_append.1 hc with h | h
    · exact h2 c h
    · exact h4 c h

theorem emits_lift_bind {α β : Type} {P : Call → Prop} {e : Except Panic α} {f : α → Build β}
    (hf : ∀ a, e = .ok a → Emits P (f a)) : Emits P (Build.lift e >>= f) := by
  cases e with
  | error p => exact fun tr => ⟨[], by simp [Bind.bind, Build.bind, Build.lift], by simp⟩
  | ok a => exact fun tr => by simpa [Bind.bind, Build.bind, Build.lift] using hf a rfl tr

theorem emits_mono {α : Type} {P Q : Call → Prop} {m : Build α} (h : ∀ c, P c → Q c)
    (hm : Emits P m) : Emits Q m := by
  intro tr
  obtain ⟨evs, h1, h2⟩ := hm tr
  exact ⟨evs, h1, fun c hc => h c (h2 c hc)⟩

theorem writeFile_emits (env : Env) (index : Nat) (src : String) (node : HostNode)
    (dest : String) : Emits (fun c => c.op.isContent) (writeFile env index src node dest) := by
  unfold writeFile
  refine emits_bind (emits_lift _ _) fun data => ?_
  refine emits_bind (emits_call _ _ _ fun _ => trivial) fun err => ?_
  refine emits_bind (emits_check _ _ _) fun _ => ?_
  refine emits_bind (emits_call _ _ _ fun _ => trivial) fun err => ?_
  refine emits_bind (emits_check _ _ _) fun _ => ?_
  refine emits_bind (emits_call _ _ _ fun _ => trivial) fun err => ?_
  exact emits_pure _ _

mutual
theorem writeDir_emits (env : Env) (index : Nat) (srcPath : String) (node : HostNode)
    (destPath : String) :
    Emits (fun c => c.op.isContent) (writeDir env index srcPath node destPath) := by
  cases node with
  | dir files =>
    rw [writeDir]
    exact writeDirLoop_emits env index srcPath files destPath
  | file data => simp only [writeDir]; exact emits_panic _ _
  | unreadableFile => simp only [writeDir]; exact emits_panic _ _
  | unreadableDir => simp only [writeDir]; exact emits_panic _ _
theorem writeDirLoop_emits (env : Env) (index : Nat) (srcPath : String) (files : DirEntries)
    (destPath : String) :
    Emits (fun c => c.op.isContent) (writeDirLoop env index srcPath files destPath) := by
  cases files with
  | nil => rw [writeDirLoop]; exact emits_pure _ _
  | cons name file rest =>
    rw [writeDirLoop]
    refine emits_bind (emits_call _ _ _ fun _ => trivial) fun err => ?_
    refine emits_bind ?_ fun _ => writeDirLoop_emits env index srcPath rest destPath
    split
    · exact writeDir_emits env index _ file _
    · exact writeFile_emits env index _ file _
end

theorem writeContent_emits (env : Env) (index : Nat) (content : FSPartitionContent) :
    Emits (fun c => c.op.isContent) (writeContent env index content) := by
  unfold writeContent
  split
  · exact emits_panic _ _
  · split
    · split
      · exact emits_panic _ _
      · exact writeDir_emits _ _ _ _ _
    · exact writeFile_emits _ _ _ _ _

theorem writeContents_emits (env : Env) (index : Nat) (contents : List FSPartitionContent) :
    Emits (fun c => c.op.isContent) (writeContents env index contents) := by
  induction contents with
  | nil => exact emits_pure _ _
  | cons content rest ih =>
    rw [writeContents]
    exact emits_bind (writeContent_emits _ _ _) fun _ => ih

theorem write_emits (env : Env) (ops : PartitionOperations) (index : Nat) :
    Emits (fun c => c.op.isContent) (ops.write env index) := by
  cases ops with
  | raw part =>
    show Emits _ (part.write env index)
    unfold RawPartitionOperations.write
    refine emits_bind (emits_call _ _ _ fun _ => trivial) fun err => ?_
    refine emits_bind (emits_call _ _ _ fun _ => trivial) fun err => ?_
    exact emits_pure _ _
  | fs part =>
    show Emits _ (part.write env index)
    unfold FSPartitionOperations.write
    refine emits_bind (emits_call _ _ _ fun _ => trivial) fun err => ?_
    refine emits_bind (emits_check _ _ _) fun _ => ?_
    exact writeContents_emits _ _ _

theorem writeLoop_emits (env : Env) (parts : List Partition) :
    ∀ i, Emits (fun c => c.op.isContent) (BuildImage.writeLoop env i parts) := by
  induction parts with
  | nil => exact fun i => emits_pure _ _
  | cons p ps ih =>
    intro i
    rw [BuildImage.writeLoop]
    exact emits_bind (write_emits _ _ _) fun _ => ih _

theorem Build.bind_pure_unit (m : Build Unit) : (m >>= fun _ => (pure () : Build Unit)) = m := by
  funext tr
  show Build.bind m _ tr = m tr
  unfold Build.bind
  rcases h : m tr with ⟨r, tr1⟩
  cases r <;> rfl

theorem Build.bind_assoc {α β γ : Type} (m : Build α) (f : α → Build β) (g : β → Build γ) :
    (m >>= f) >>= g = m >>= fun a => f a >>= g := by
  funext tr
  show Build.bind (Build.bind m f) g tr = Build.bind m (fun a => Build.bind (f a) g) tr
  unfold Build.bind
  rcases h : m tr with ⟨r, tr1⟩
  cases r <;> rfl

theorem Build.bind_apply {α β : Type} (m : Build α) (f : α → Build β) (tr : List Call) :
    (m >>= f) tr = match m tr with
      | (.ok a, tr1) => f a tr1
      | (.error p, tr1) => (.error p, tr1) := rfl

theorem BuildImage_emits (env : Env) (config : Configuration) :
    Emits (BuildImage.Allowed env config) (BuildImage env config) := by
  unfold BuildImage
  refine emits_bind (emits_call _ _ _ fun _ => rfl) fun err => ?_
  refine emits_bind (by split <;> first | exact emits_panic _ _ | exact emits_pure _ _) fun _ => ?_
  refine emits_lift_bind fun size hsize => ?_
  refine emits_bind (emits_call _ _ _ fun _ => rfl) fun _ => ?_
  refine emits_bind (emits_call _ _ _ fun _ => ⟨rfl, rfl, size, hsize, rfl⟩) fun err => ?_
  refine emits_bind (emits_check _ _ _) fun _ => ?_
  refine emits_lift_bind fun gs hgs => ?_
  refine emits_bind (emits_call _ _ _ fun _ => ⟨hgs, rfl⟩) fun err => ?_
  refine emits_bind (emits_check _ _ _) fun _ => ?_
  refine emits_bind (emits_mono ?_ (writeLoop_emits env config.partitions 0)) fun _ => ?_
  · intro c hc
    unfold BuildImage.Allowed
    cases hop : c.op <;> simp_all [Op.isContent]
  unfold BuildImage.bootsectorStep
  split
  · refine emits_lift_bind fun data hdata => ?_
    dsimp only
    split
    · exact emits_panic _ _
    · rename_i hle
      refine emits_bind (emits_call _ _ _ fun _ => ⟨rfl, ?_, hle⟩) fun err => emits_check _ _ _
      cases hst : env.stat config.bootsector with
      | none => simp [hst] at hdata
      | some node =>
        simp only [hst] at hdata
        cases node <;> simp_all [readFile]
  · exact emits_pure _ _

theorem BuildImage_eq (env : Env) (config : Configuration) :
    BuildImage env config
      = (BuildImage env { config with bootsector := "" } >>= fun _ =>
          BuildImage.bootsectorStep env config) := by
  unfold BuildImage BuildImage.bootsectorStep
  simp only [Build.bind_assoc, BuildImage.size, BuildImage.gptPartitions, ne_eq, not_true_eq_false,
    if_false, pure_bind]
  rfl

theorem Build.bind_ok {α β : Type} {m : Build α} {f : α → Build β} {tr tr2 : List Call} {b : β}
    (h : (m >>= f) tr = (.ok b, tr2)) :
    ∃ a tr1, m tr = (.ok a, tr1) ∧ f a tr1 = (.ok b, tr2) := by
  rw [Build.bind_apply] at h
  rcases hm : m tr with ⟨r, tr1⟩
  rw [hm] at h
  cases r with
  | error p => simp at h
  | ok a => exact ⟨a, tr1, rfl, h⟩

theorem Build.call_eq (env : Env) (op : Op) (tr : List Call) :
    Build.call env op tr = (.ok (env.respond tr op), tr ++ [⟨op, env.respond tr op⟩]) := rfl

theorem Build.call_ok {env : Env} {op : Op} {e : Option Err} {tr tr1 : List Call}
    (h : Build.call env op tr = (.ok e, tr1)) : e = env.respond tr op ∧ tr1 = tr ++ [⟨op, e⟩] := by
  rw [Build.call_eq] at h
  simp only [Prod.mk.injEq, Except.ok.injEq] at h
  obtain ⟨h1, h2⟩ := h
  subst h1
  exact ⟨rfl, h2.symm⟩

theorem Build.removeCheck_ok {op : Op} {e : Option Err} {u : Unit} {tr tr1 : List Call}
    (h : (match e with
          | some Err.other => Build.panic (.callError op Err.other)
          | _ => (pure () : Build Unit)) tr = (.ok u, tr1)) :
    e ≠ some Err.other ∧ tr1 = tr := by
  cases e with
  | none => exact ⟨by simp, by simpa [pure, eq_comm] using h⟩
  | some x =>
    cases x with
    | notExist => exact ⟨by simp, by simpa [pure, eq_comm] using h⟩
    | other => simp [Build.panic] at h

theorem Build.check_ok {op : Op} {err : Option Err} {tr tr1 : List Call}
    (h : Build.check op err tr = (.ok (), tr1)) : err = none ∧ tr1 = tr := by
  cases err with
  | none => exact ⟨rfl, by simpa [Build.check, pure] using h.symm⟩
  | some e => simp [Build.check, Build.panic] at h

theorem Build.lift_ok {α : Type} {e : Except Panic α} {a : α} {tr tr1 : List Call}
    (h : Build.lift e tr = (.ok a, tr1)) : e = .ok a ∧ tr1 = tr := by
  simpa [Build.lift, eq_comm] using h

/-- The shape of a run of `BuildImage` that does not panic. -/
theorem BuildImage_ok {env : Env} {config : Configuration} {tr0 tr : List Call}
    (h : BuildImage env config tr0 = (.ok (), tr)) :
    ∃ e1 e2 size gs tr1,
      e1 ≠ some Err.other ∧
      BuildImage.size config = .ok size ∧
      BuildImage.gptPartitions config = .ok gs ∧
      BuildImage.writeLoop env 0 config.partitions
          (tr0 ++ [⟨.osRemove (env.pathJoin config.dest config.name), e1⟩,
            ⟨.osMkdirAll config.dest, e2⟩,
            ⟨.diskfsCreate (env.pathJoin config.dest config.name) (int64 size)
              (int64 config.sectorSize), none⟩,
            ⟨.partition ⟨gs, config.pmbr⟩, none⟩])
        = (.ok (), tr1) ∧
      BuildImage.bootsectorStep env config tr1 = (.ok (), tr) := by
  unfold BuildImage at h
  obtain ⟨e1, t1, h1, k1⟩ := Build.bind_ok h
  obtain ⟨_, t2, h2, k2⟩ := Build.bind_ok k1
  obtain ⟨size, t3, h3, k3⟩ := Build.bind_ok k2
  obtain ⟨e2, t4, h4, k4⟩ := Build.bind_ok k3
  obtain ⟨e3, t5, h5, k5⟩ := Build.bind_ok k4
  obtain ⟨_, t6, h6, k6⟩ := Build.bind_ok k5
  obtain ⟨gs, t7, h7, k7⟩ := Build.bind_ok k6
  obtain ⟨e4, t8, h8, k8⟩ := Build.bind_ok k7
  obtain ⟨_, t9, h9, k9⟩ := Build.bind_ok k8
  obtain ⟨_, t10, h10, k10⟩ := Build.bind_ok k9
  obtain ⟨-, rfl⟩ := Build.call_ok h1
  obtain ⟨hne, rfl⟩ := Build.removeCheck_ok h2
  obtain ⟨hs, rfl⟩ := Build.lift_ok h3
  obtain ⟨-, rfl⟩ := Build.call_ok h4
  obtain ⟨-, rfl⟩ := Build.call_ok h5
  obtain ⟨rfl, rfl⟩ := Build.check_ok h6
  obtain ⟨hg, rfl⟩ := Build.lift_ok h7
  obtain ⟨-, rfl⟩ := Build.call_ok h8
  obtain ⟨rfl, rfl⟩ := Build.check_ok h9
  exact ⟨e1, e2, size, gs, t10, hne, hs, hg, by simpa using h10, k10⟩

theorem bootsectorStep_empty (env : Env) (config : Configuration) (h : config.bootsector = "")
    (tr : List Call) : BuildImage.bootsectorStep env config tr = (.ok (), tr) := by
  unfold BuildImage.bootsectorStep
  rw [if_neg (by simp [h])]
  rfl

theorem bootsectorStep_large (env : Env) (config : Configuration) (data : Bytes)
    (hb : config.bootsector ≠ "") (hst : env.stat config.bootsector = some (.file data))
    (hlen : 440 < data.length) (tr : List Call) :
    BuildImage.bootsectorStep env config tr
      = (.error (.bootsectorTooLarge data.length), tr) := by
  have hgt : ((data.length : Int) > MaxBootsectorSize) := by
    unfold MaxBootsectorSize; omega
  unfold BuildImage.bootsectorStep
  rw [if_pos hb, hst]
  simp only [readFile, Build.bind_apply, Build.lift]
  rw [if_pos hgt]
  rfl

theorem bootsectorStep_small (env : Env) (config : Configuration) (data : Bytes)
    (hb : config.bootsector ≠ "") (hst : env.stat config.bootsector = some (.file data))
    (hlen : data.length ≤ 440) (tr : List Call) :
    BuildImage.bootsectorStep env config tr
      = (match env.respond tr (.writeAt data 0) with
          | none => .ok ()
          | some e => .error (.callError (.writeAt data 0) e),
         tr ++ [⟨.writeAt data 0, env.respond tr (.writeAt data 0)⟩]) := by
  have hgt : ¬ ((data.length : Int) > MaxBootsectorSize) := by
    unfold MaxBootsectorSize; omega
  unfold BuildImage.bootsectorStep
  rw [if_pos hb, hst]
  simp only [readFile, Build.bind_apply, Build.lift]
  rw [if_neg hgt]
  simp only [Build.bind_apply, Build.call_eq]
  cases env.respond tr (.writeAt data 0) <;> rfl

theorem imageAfter_append (codec : Bytes → Call → Bytes) (img : Bytes) (tr : List Call) (c : Call) :
    imageAfter codec img (tr ++ [c]) = imageStep codec (imageAfter codec img tr) c := by
  simp [imageAfter, List.foldl_append]

theorem WriteAt_zero (img b : Bytes) : WriteAt img b 0 = b ++ img.drop b.length := by
  simp [WriteAt]

theorem fileCalls_cons (env : Env) (index : Nat) (dest name : String) (p : List String)
    (data : Bytes) :
    fileCalls env index dest (name :: p, data)
      = fileCalls env index (env.pathJoin dest name) (p, data) := rfl

theorem materialized_nil (env : Env) (index : Nat) (dest : String) :
    Materialized env index dest [] [] := by
  constructor
  · simp
  · intro p data h
    simp at h

/-- One round of the loop of `writeDir`: the `Mkdir` of the destination, the
calls for the child, the calls for the rest. -/
theorem materialized_step (env : Env) (index : Nat) (dest name : String)
    (fsChild fsRest : List (List String × Bytes)) (evsChild evsRest : List Call)
    (hc : Materialized env index (env.pathJoin dest name) fsChild evsChild)
    (hr : Materialized env index dest fsRest evsRest) :
    Materialized env index dest ((fsChild.map fun f => (name :: f.1, f.2)) ++ fsRest)
      (⟨.fsMkdir index dest, none⟩ :: (evsChild ++ evsRest)) := by
  obtain ⟨hc1, hc2⟩ := hc
  obtain ⟨hr1, hr2⟩ := hr
  constructor
  · have hflat : ∀ l : List (List String × Bytes),
        (l.map fun f => (name :: f.1, f.2)).flatMap (fileCalls env index dest)
          = l.flatMap (fileCalls env index (env.pathJoin dest name)) := by
      intro l
      induction l with
      | nil => rfl
      | cons f l ih =>
        simp only [List.map_cons, List.flatMap_cons, ih]
        rfl
    rw [List.filter_cons_of_neg (by simp [Op.isMkdir]), List.filter_append, hc1, hr1,
      List.flatMap_append, hflat]
  · intro p data hmem
    rcases List.mem_append.1 hmem with h | h
    · obtain ⟨f, hf, hfeq⟩ := List.mem_map.1 h
      obtain ⟨p1, d1⟩ := f
      simp only [Prod.mk.injEq] at hfeq
      obtain ⟨rfl, rfl⟩ := hfeq
      obtain ⟨pre, post, he, hq⟩ := hc2 p1 d1 hf
      refine ⟨⟨.fsMkdir index dest, none⟩ :: pre, post ++ evsRest, ?_, ?_⟩
      · rw [fileCalls_cons, he]
        simp
      · intro q hqp hne
        cases q with
        | nil => simp [joinRel]
        | cons a q1 =>
          rw [List.cons_prefix_cons] at hqp
          obtain ⟨rfl, hq1⟩ := hqp
          have := hq q1 hq1 (fun hh => hne (by rw [hh]))
          exact List.mem_cons_of_mem _ this
    · obtain ⟨pre, post, he, hq⟩ := hr2 p data h
      refine ⟨⟨.fsMkdir index dest, none⟩ :: (evsChild ++ pre), post, ?_, ?_⟩
      · rw [he]
        simp
      · intro q hqp hne
        exact List.mem_cons_of_mem _ (List.mem_append_right _ (hq q hqp hne))

theorem writeFile_ok (env : Env) (hresp : ∀ tr op, env.respond tr op = none) (index : Nat)
    (src : String) (data : Bytes) (dest : String) (tr : List Call) :
    writeFile env index src (.file data) dest tr
      = (.ok (), tr ++ fileCalls env index dest ([], data)) := by
  simp [writeFile, Build.bind_apply, Build.lift, readFile, Build.call_eq, hresp, Build.check,
    fileCalls, joinRel, pure]

theorem materialized_single (env : Env) (index : Nat) (dest : String) (data : Bytes) :
    Materialized env index dest [([], data)] (fileCalls env index dest ([], data)) := by
  constructor
  · simp [fileCalls, Op.isMkdir]
  · intro p d h
    simp only [List.mem_singleton, Prod.mk.injEq] at h
    obtain ⟨rfl, rfl⟩ := h
    refine ⟨[], [], by simp, ?_⟩
    intro q hq hne
    exact absurd (List.prefix_nil.1 hq) hne

mutual
theorem writeNode_complete (env : Env) (hresp : ∀ tr op, env.respond tr op = none) (index : Nat)
    (node : HostNode) (src dest : String) (tr : List Call) (hread : node.Readable) :
    ∃ evs, (if node.IsDir then writeDir env index src node dest
            else writeFile env index src node dest) tr = (.ok (), tr ++ evs) ∧
      Materialized env index dest node.files evs := by
  cases node with
  | file data =>
    exact ⟨_, by simpa [HostNode.IsDir] using writeFile_ok env hresp index src data dest tr,
      by simpa [HostNode.files] using materialized_single env index dest data⟩
  | unreadableFile => simp [HostNode.Readable] at hread
  | unreadableDir => simp [HostNode.Readable] at hread
  | dir files =>
    simp only [HostNode.Readable] at hread
    obtain ⟨evs, h1, h2⟩ := writeDirLoop_complete env hresp index files src dest tr hread
    exact ⟨evs, by simpa [HostNode.IsDir, writeDir] using h1, by simpa [HostNode.files] using h2⟩
theorem writeDirLoop_complete (env : Env) (hresp : ∀ tr op, env.respond tr op = none)
    (index : Nat) (files : DirEntries) (src dest : String) (tr : List Call)
    (hread : files.Readable) :
    ∃ evs, writeDirLoop env index src files dest tr = (.ok (), tr ++ evs) ∧
      Materialized env index dest files.files evs := by
  cases files with
  | nil =>
    exact ⟨[], by simp [writeDirLoop, pure],
      by simpa [DirEntries.files] using (materialized_nil env index dest)⟩
  | cons name file rest =>
    simp only [DirEntries.Readable] at hread
    obtain ⟨evs1, h1, m1⟩ := writeNode_complete env hresp index file (env.pathJoin src name)
      (env.pathJoin dest name) (tr ++ [⟨.fsMkdir index dest, none⟩]) hread.1
    obtain ⟨evs2, h2, m2⟩ := writeDirLoop_complete env hresp index rest src dest
      (tr ++ [⟨.fsMkdir index dest, none⟩] ++ evs1) hread.2
    refine ⟨⟨.fsMkdir index dest, none⟩ :: (evs1 ++ evs2), ?_, ?_⟩
    · rw [writeDirLoop]
      simp only [Build.bind_apply, Build.call_eq, hresp, h1, h2]
      simp
    · simpa [DirEntries.files] using materialized_step env index dest name _ _ _ _ m1 m2
end

theorem panicsOnly_pure {α : Type} (Q : Panic → Prop) (a : α) :
    PanicsOnly Q (pure a : Build α) := by
  intro tr p h
  simp [Pure.pure] at h

theorem panicsOnly_panic {α : Type} (Q : Panic → Prop) (p : Panic) (h : Q p) :
    PanicsOnly Q (Build.panic p : Build α) := by
  intro tr q hq
  simp only [Build.panic, Except.error.injEq] at hq
  exact hq ▸ h

theorem panicsOnly_lift {α : Type} (Q : Panic → Prop) (e : Except Panic α)
    (h : ∀ p, e = .error p → Q p) : PanicsOnly Q (Build.lift e) :=
  fun _ p hp => h p hp

theorem panicsOnly_call (Q : Panic → Prop) (env : Env) (op : Op) :
    PanicsOnly Q (Build.call env op) := by
  intro tr p h
  simp [Build.call] at h

theorem panicsOnly_check (Q : Panic → Prop) (op : Op) (err : Option Err)
    (h : ∀ e, Q (.callError op e)) : PanicsOnly Q (Build.check op err) := by
  cases err with
  | none => exact panicsOnly_pure Q ()
  | some e => exact panicsOnly_panic Q _ (h e)

theorem panicsOnly_bind {α β : Type} {Q : Panic → Prop} {m : Build α} {f : α → Build β}
    (hm : PanicsOnly Q m) (hf : ∀ a, PanicsOnly Q (f a)) : PanicsOnly Q (m >>= f) := by
  intro tr p h
  rw [Build.bind_apply] at h
  rcases hmt : m tr with ⟨r, tr1⟩
  rw [hmt] at h
  cases r with
  | error q =>
    simp only [Except.error.injEq] at h
    exact hm tr p (by rw [hmt, h])
  | ok a => exact hf a tr1 p h

theorem writeFile_panics (env : Env) (index : Nat) (src : String) (node : HostNode)
    (dest : String) :
    PanicsOnly (fun p => p ≠ .expectedFile) (writeFile env index src node dest) := by
  unfold writeFile
  refine panicsOnly_bind (panicsOnly_lift _ _ ?_) fun data => ?_
  · intro p hp
    cases node <;> simp [readFile] at hp <;> simp [← hp]
  refine panicsOnly_bind (panicsOnly_call _ _ _) fun err => ?_
  refine panicsOnly_bind (panicsOnly_check _ _ _ (by simp)) fun _ => ?_
  refine panicsOnly_bind (panicsOnly_call _ _ _) fun err => ?_
  refine panicsOnly_bind (panicsOnly_check _ _ _ (by simp)) fun _ => ?_
  refine panicsOnly_bind (panicsOnly_call _ _ _) fun err => ?_
  exact panicsOnly_pure _ _

mutual
theorem writeDir_panics (env : Env) (index : Nat) (srcPath : String) (node : HostNode)
    (destPath : String) :
    PanicsOnly (fun p => p ≠ .expectedFile) (writeDir env index srcPath node destPath) := by
  cases node with
  | dir files =>
    rw [writeDir]
    exact writeDirLoop_panics env index srcPath files destPath
  | file data => simp only [writeDir]; exact panicsOnly_panic _ _ (by simp)
  | unreadableFile => simp only [writeDir]; exact panicsOnly_panic _ _ (by simp)
  | unreadableDir => simp only [writeDir]; exact panicsOnly_panic _ _ (by simp)
theorem writeDirLoop_panics (env : Env) (index : Nat) (srcPath : String) (files : DirEntries)
    (destPath : String) :
    PanicsOnly (fun p => p ≠ .expectedFile) (writeDirLoop env index srcPath files destPath) := by
  cases files with
  | nil => rw [writeDirLoop]; exact panicsOnly_pure _ _
  | cons name file rest =>
    rw [writeDirLoop]
    refine panicsOnly_bind (panicsOnly_call _ _ _) fun err => ?_
    refine panicsOnly_bind ?_ fun _ => writeDirLoop_panics env index srcPath rest destPath
    split
    · exact writeDir_panics env index _ file _
    · exact writeFile_panics env index _ file _
end

/-- The one way for the body of the contents loop to panic with "expected a
file, got directory". -/
theorem writeContent_expectedFile (env : Env) (index : Nat) (content : FSPartitionContent)
    (tr : List Call) :
    (writeContent env index content tr).1 = .error .expectedFile ↔
      content.recursive = false ∧ ∃ node, env.stat content.src = some node ∧ node.IsDir = true := by
  unfold writeContent
  cases hst : env.stat content.src with
  | none => simp [Build.panic]
  | some node =>
    simp only [Option.some.injEq, exists_eq_left']
    by_cases hd : node.IsDir = true
    · rw [if_pos hd]
      cases hr : content.recursive with
      | false => simp [Build.panic, hd]
      | true =>
        simp only [Bool.not_true, Bool.false_eq_true, if_false]
        constructor
        · exact fun h => absurd rfl (writeDir_panics env index _ node _ tr _ h)
        · intro h
          simp at h
    · rw [if_neg hd]
      constructor
      · exact fun h => absurd rfl (writeFile_panics env index _ node _ tr _ h)
      · intro h
        exact absurd h.2 hd

theorem writeContent_expectedFile_trace (env : Env) (index : Nat) (content : FSPartitionContent)
    (tr : List Call) (hrec : content.recursive = false) (node : HostNode)
    (hst : env.stat content.src = some node) (hdir : node.IsDir = true) :
    writeContent env index content tr = (.error .expectedFile, tr) := by
  unfold writeContent
  rw [hst]
  simp [hdir, hrec, Build.panic]

theorem writeContents_append (env : Env) (index : Nat) (before after : List FSPartitionContent) :
    writeContents env index (before ++ after)
      = (writeContents env index before >>= fun _ => writeContents env index after) := by
  induction before with
  | nil =>
    funext tr
    simp [writeContents, Build.bind_apply, pure]
  | cons c cs ih =>
    rw [List.cons_append, writeContents, writeContents, ih, Build.bind_assoc]

/-- A panic "expected a file, got directory" of the contents loop comes from an
entry that is a directory and not recursive, reached after the entries before
it were written. -/
theorem writeContents_expectedFile (env : Env) (index : Nat) :
    ∀ (contents : List FSPartitionContent) (tr : List Call),
      (writeContents env index contents tr).1 = .error .expectedFile →
      ∃ before e after tr1, contents = before ++ e :: after ∧
        writeContents env index before tr = (.ok (), tr1) ∧
        e.recursive = false ∧ ∃ node, env.stat e.src = some node ∧ node.IsDir = true := by
  intro contents
  induction contents with
  | nil =>
    intro tr h
    simp [writeContents, pure] at h
  | cons c cs ih =>
    intro tr h
    rw [writeContents, Build.bind_apply] at h
    rcases hc : writeContent env index c tr with ⟨r, tr1⟩
    rw [hc] at h
    cases r with
    | error p =>
      simp only [Except.error.injEq] at h
      subst h
      have := (writeContent_expectedFile env index c tr).1 (by rw [hc])
      exact ⟨[], c, cs, tr, rfl, rfl, this.1, this.2⟩
    | ok u =>
      obtain ⟨before, e, after, tr2, hcs, hb, he⟩ := ih tr1 h
      refine ⟨c :: before, e, after, tr2, by rw [hcs]; rfl, ?_, he⟩
      rw [writeContents, Build.bind_apply, hc]
      exact hb

theorem emits_trace_mono {α : Type} {P : Call → Prop} {m : Build α} (hm : Emits P m)
    (tr : List Call) {c : Call} (hc : c ∈ tr) : c ∈ (m tr).2 := by
  obtain ⟨evs, h, _⟩ := hm tr
  rw [h]
  exact List.mem_append_left _ hc

theorem write_starts (env : Env) (ops : PartitionOperations) (index : Nat) (tr : List Call) :
    ∃ c ∈ (ops.write env index tr).2, c.op.startsPartition index := by
  cases ops with
  | raw part =>
    refine ⟨⟨.writePartitionContents index part.file.name,
      env.respond tr (.writePartitionContents index part.file.name)⟩, ?_, rfl⟩
    simp [PartitionOperations.write, RawPartitionOperations.write, Build.bind_apply,
      Build.call_eq, pure]
  | fs part =>
    refine ⟨⟨.createFilesystem index part.fsType,
      env.respond tr (.createFilesystem index part.fsType)⟩, ?_, rfl⟩
    show _ ∈ (part.write env index tr).2
    unfold FSPartitionOperations.write
    rw [Build.bind_apply, Build.call_eq]
    have h1 := emits_bind (emits_check (fun _ => True) (.createFilesystem index part.fsType)
      (env.respond tr (.createFilesystem index part.fsType)))
      (fun _ => emits_mono (fun _ _ => trivial) (writeContents_emits env index part.contents))
    exact emits_trace_mono h1 _ (by simp)

theorem writeLoop_starts (env : Env) :
    ∀ (parts : List Partition) (i : Nat) (tr tr1 : List Call),
      BuildImage.writeLoop env i parts tr = (.ok (), tr1) →
      (∀ c ∈ tr, c ∈ tr1) ∧
      ∀ j p, parts[j]? = some p → ∃ c ∈ tr1, c.op.startsPartition (i + j + 1) := by
  intro parts
  induction parts with
  | nil =>
    intro i tr tr1 h
    simp only [BuildImage.writeLoop, pure, Prod.mk.injEq, true_and] at h
    subst h
    exact ⟨fun c hc => hc, by simp⟩
  | cons p ps ih =>
    intro i tr tr1 h
    rw [BuildImage.writeLoop] at h
    obtain ⟨_, tr2, h1, h2⟩ := Build.bind_ok h
    obtain ⟨hmono, hrest⟩ := ih (i + 1) tr2 tr1 h2
    have hm1 : ∀ c ∈ tr, c ∈ tr2 := by
      intro c hc
      have := emits_trace_mono (write_emits env p.ops (i + 1)) tr hc
      rwa [h1] at this
    refine ⟨fun c hc => hmono c (hm1 c hc), ?_⟩
    intro j q hq
    cases j with
    | zero =>
      obtain ⟨c, hc, hs⟩ := write_starts env p.ops (i + 1) tr
      simp only [List.getElem?_cons_zero, Option.some.injEq] at hq
      rw [h1] at hc
      exact ⟨c, hmono c hc, by simpa using hs⟩
    | succ k =>
      simp only [List.getElem?_cons_succ] at hq
      obtain ⟨c, hc, hs⟩ := hrest k q hq
      exact ⟨c, hc, by rw [show i + (k + 1) + 1 = i + 1 + k + 1 by omega]; exact hs⟩

theorem bootsectorStep_emits (env : Env) (config : Configuration) :
    Emits (BuildImage.Allowed env config) (BuildImage.bootsectorStep env config) := by
  unfold BuildImage.bootsectorStep
  split
  · refine emits_lift_bind fun data hdata => ?_
    dsimp only
    split
    · exact emits_panic _ _
    · rename_i hle
      refine emits_bind (emits_call _ _ _ fun _ => ⟨rfl, ?_, hle⟩) fun err => emits_check _ _ _
      cases hst : env.stat config.bootsector with
      | none => simp [hst] at hdata
      | some node =>
        simp only [hst] at hdata
        cases node <;> simp_all [readFile]
  · exact emits_pure _ _

/-- A run of `BuildImage` that does not panic has submitted the partition table
it computed. -/
theorem BuildImage_ok_partition {env : Env} {config : Configuration} {tr : List Call}
    (h : BuildImage env config [] = (.ok (), tr)) :
    ∃ gs, BuildImage.gptPartitions config = .ok gs ∧
      (⟨.partition ⟨gs, config.pmbr⟩, none⟩ : Call) ∈ tr ∧
      ∀ i p, config.partitions[i]? = some p → ∃ c ∈ tr, c.op.startsPartition (i + 1) := by
  obtain ⟨e1, e2, size, gs, tr1, -, -, hg, hw, hb⟩ := BuildImage_ok h
  obtain ⟨hmono, hstart⟩ := writeLoop_starts env _ _ _ _ hw
  have hb2 : ∀ c ∈ tr1, c ∈ tr := by
    intro c hc
    have := emits_trace_mono (bootsectorStep_emits env config) tr1 hc
    rwa [hb] at this
  refine ⟨gs, hg, hb2 _ (hmono _ (by simp)), ?_⟩
  intro i p hp
  obtain ⟨c, hc, hs⟩ := hstart i p hp
  exact ⟨c, hb2 c hc, by simpa using hs⟩

/-- Claim C1: for a sector size `S > 0`, first sector `F` and partition sizes
`size_1..size_n` without `uint64` overflow, `BuildImage` computes a partition
list that every `img.Partition` call of the run carries and that a run without
panic has submitted; the list has `n` entries in configuration order, the
first starts at `F`, every entry spans `Ceil(size_i, S) / S` sectors, which is
the ceiling of `size_i / S`, and every entry starts where the one before it
ends. -/
theorem layout_contiguous (env : Env) (config : Configuration) (sizes : List Nat)
    (hS : 0 < config.sectorSize)
    (hsizes : config.partitions.map (fun p => p.ops.size) = sizes.map Except.ok)
    (hceil : ∀ s ∈ sizes, s + config.sectorSize - 1 < 2 ^ 64)
    (hsum : config.firstSector
        + (sizes.map fun s => (s + config.sectorSize - 1) / config.sectorSize).sum < 2 ^ 64) :
    ∃ gs : List GptPartition,
      BuildImage.gptPartitions config = .ok gs ∧
      (∀ table err, (⟨.partition table, err⟩ : Call) ∈ (BuildImage env config []).2 →
        table.Partitions = gs) ∧
      (∀ tr, BuildImage env config [] = (.ok (), tr) →
        (⟨.partition ⟨gs, config.pmbr⟩, none⟩ : Call) ∈ tr) ∧
      gs.length = config.partitions.length ∧
      (∀ g, gs[0]? = some g → g.Start = config.firstSector) ∧
      (∀ (i : Nat) (g : GptPartition), gs[i]? = some g →
        ∃ p s c, config.partitions[i]? = some p ∧ sizes[i]? = some s ∧
          g.Name = p.name ∧ g.TypeGUID = p.typeUUID ∧
          Ceil s config.sectorSize = .ok c ∧
          g.Start ≤ g.End ∧ g.End - g.Start = c / config.sectorSize ∧
          c / config.sectorSize = ⌈(s : ℚ) / (config.sectorSize : ℚ)⌉₊) ∧
      (∀ (i : Nat) (g g2 : GptPartition), gs[i]? = some g → gs[i + 1]? = some g2 →
        g2.Start = g.End) := by
  obtain ⟨gs, hgs, hlen, hfirst, hall, hadj⟩ :=
    partitionLoop_of_no_overflow config.sectorSize hS config.partitions sizes config.firstSector
      hsizes hceil hsum
  have hg : BuildImage.gptPartitions config = .ok gs := hgs
  refine ⟨gs, hg, ?_, ?_, hlen, hfirst, ?_, hadj⟩
  · intro table err hmem
    obtain ⟨evs, he, hall2⟩ := BuildImage_emits env config []
    rw [he, List.nil_append] at hmem
    have := (hall2 _ hmem).1
    rw [hg] at this
    simpa using this.symm
  · intro tr htr
    obtain ⟨gs2, hg2, hmem, -⟩ := BuildImage_ok_partition htr
    rw [hg] at hg2
    simp only [Except.ok.injEq] at hg2
    rw [hg2]
    exact hmem
  · intro i g hg1
    obtain ⟨p, s, hp, hs, hn, ht, hc, hend⟩ := hall i g hg1
    have hdiv : (s + config.sectorSize - 1) / config.sectorSize * config.sectorSize
        / config.sectorSize = (s + config.sectorSize - 1) / config.sectorSize :=
      Nat.mul_div_cancel _ hS
    rw [hdiv] at hend
    refine ⟨p, s, _, hp, hs, hn, ht, hc, ?_, ?_, ?_⟩
    · rw [hend]
      exact Nat.le_add_right _ _
    · rw [hend, hdiv, Nat.add_sub_cancel_left]
    · rw [hdiv]
      exact sectors_eq_ceil s config.sectorSize hS

theorem layout_contiguous_witness :
    0 < twoPartConfig.sectorSize ∧
    ∃ gs : List GptPartition,
      BuildImage.gptPartitions twoPartConfig = .ok gs ∧
      gs.length = 2 ∧
      (∀ g, gs[0]? = some g → g.Start = 2048) ∧
      (∀ (i : Nat) (g g2 : GptPartition), gs[i]? = some g → gs[i + 1]? = some g2 →
        g2.Start = g.End) := by
  obtain ⟨gs, h1, -, -, h4, h5, -, h7⟩ :=
    layout_contiguous exampleEnv twoPartConfig [1000, 16777216] (by decide) rfl (by decide)
      (by decide)
  exact ⟨by decide, gs, h1, h4, h5, h7⟩

theorem int64_of_lt (n : Nat) (h : n < 2 ^ 63) : int64 n = (n : Int) := by
  unfold int64
  have h1 : n % 2 ^ 64 = n := Nat.mod_eq_of_lt (by simp only [two64, two63] at *; omega)
  rw [h1, if_pos h]

theorem forall₂_rounded (S : Nat) (hS : 0 < S) (sizes : List Nat) :
    List.Forall₂ (fun s c => IsLeast {m : Nat | S ∣ m ∧ s ≤ m} c) sizes
      (sizes.map fun s => (s + S - 1) / S * S) := by
  induction sizes with
  | nil => exact List.Forall₂.nil
  | cons s ss ih => exact List.Forall₂.cons (rounded_isLeast s S hS) ih

/-- Claim C2, amended: for a sector size `S > 0`, first sector `F` and
partition sizes without `uint64` overflow whose total stays below `2 ^ 63`,
the size `BuildImage` computes and the size argument of every `diskfs.Create`
call of the run equal `S * F` plus the sum of the sizes rounded up to the
least multiple of `S`; for one partition of 1000 bytes with `S = 512` and
`F = 2048` that is 1,049,600 and the partition list is the one entry from
sector 2048 to sector 2050. -/
theorem allocated_size (env : Env) (config : Configuration) (sizes : List Nat)
    (hS : 0 < config.sectorSize)
    (hsizes : config.partitions.map (fun p => p.ops.size) = sizes.map Except.ok)
    (hceil : ∀ s ∈ sizes, s + config.sectorSize - 1 < 2 ^ 64)
    (hsum : config.sectorSize * config.firstSector
        + (sizes.map fun s => (s + config.sectorSize - 1) / config.sectorSize
            * config.sectorSize).sum < 2 ^ 63) :
    ∃ rounded : List Nat,
      List.Forall₂ (fun s c => IsLeast {m : Nat | config.sectorSize ∣ m ∧ s ≤ m} c) sizes rounded ∧
      BuildImage.size config
        = .ok (config.sectorSize * config.firstSector + rounded.sum) ∧
      (∀ path size sectorSize err,
        (⟨.diskfsCreate path size sectorSize, err⟩ : Call) ∈ (BuildImage env config []).2 →
        size = ((config.sectorSize * config.firstSector + rounded.sum : Nat) : Int)) ∧
      (config.sectorSize = 512 → config.firstSector = 2048 → sizes = [1000] →
        config.sectorSize * config.firstSector + rounded.sum = 1049600 ∧
        ∃ p, config.partitions = [p] ∧
          BuildImage.gptPartitions config = .ok [⟨2048, 2050, p.typeUUID, p.name⟩]) := by
  have h63 : (2 : Nat) ^ 63 < 2 ^ 64 := by norm_num
  have hmul : u64mul config.sectorSize config.firstSector
      = config.sectorSize * config.firstSector := by
    unfold u64mul
    exact Nat.mod_eq_of_lt (by omega)
  have hsize : BuildImage.size config = .ok (config.sectorSize * config.firstSector
      + (sizes.map fun s => (s + config.sectorSize - 1) / config.sectorSize
          * config.sectorSize).sum) := by
    unfold BuildImage.size
    rw [hmul]
    exact sizeLoop_of_no_overflow config.sectorSize hS config.partitions sizes _ hsizes hceil
      (by omega)
  refine ⟨_, forall₂_rounded config.sectorSize hS sizes, hsize, ?_, ?_⟩
  · intro path size sectorSize err hmem
    obtain ⟨evs, he, hall⟩ := BuildImage_emits env config []
    rw [he, List.nil_append] at hmem
    obtain ⟨-, -, total, ht, hsz⟩ := hall _ hmem
    rw [hsize] at ht
    simp only [Except.ok.injEq] at ht
    rw [hsz, ← ht]
    exact int64_of_lt _ hsum
  · intro h512 h2048 h1000
    subst h1000
    refine ⟨by rw [h512, h2048]; rfl, ?_⟩
    cases hp : config.partitions with
    | nil => rw [hp] at hsizes; simp at hsizes
    | cons p ps =>
      rw [hp] at hsizes
      simp only [List.map_cons, List.map_nil, List.cons.injEq, List.map_eq_nil_iff] at hsizes
      obtain ⟨hps, rfl⟩ := hsizes
      refine ⟨p, rfl, ?_⟩
      unfold BuildImage.gptPartitions
      rw [hp, h512, h2048]
      simp only [BuildImage.partitionLoop, hps, bind, Except.bind, pure, Except.pure]
      rfl

theorem allocated_size_witness :
    0 < rawConfig.sectorSize ∧
    BuildImage.size rawConfig = .ok 1049600 ∧
    BuildImage.gptPartitions rawConfig
      = .ok [⟨2048, 2050, "C12A7328-F81F-11D2-BA4B-00A0C93EC93B", "boot"⟩] := by
  obtain ⟨rounded, -, h2, -, h4⟩ :=
    allocated_size exampleEnv rawConfig [1000] (by decide) rfl (by decide) (by decide)
  obtain ⟨h5, p, hp, h6⟩ := h4 rfl rfl rfl
  have hp2 : p = ⟨"boot", "C12A7328-F81F-11D2-BA4B-00A0C93EC93B", .raw ⟨⟨"kernel.bin", some 1000⟩⟩⟩ := by
    have : rawConfig.partitions
        = [⟨"boot", "C12A7328-F81F-11D2-BA4B-00A0C93EC93B", .raw ⟨⟨"kernel.bin", some 1000⟩⟩⟩] := rfl
    rw [this] at hp
    simpa using hp.symm
  subst hp2
  refine ⟨by decide, ?_, h6⟩
  rw [h2]
  exact congrArg Except.ok h5

/-- Claim C2 as stated fails: with sector size 512, first sector `2 ^ 54` and no
partition nothing overflows in `uint64`, the total is `2 ^ 63`, and the size
`BuildImage` hands to `diskfs.Create` is `-2 ^ 63`. -/
theorem allocated_size_counterexample :
    0 < hugeConfig.sectorSize ∧
    hugeConfig.sectorSize * hugeConfig.firstSector < 2 ^ 64 ∧
    BuildImage.size hugeConfig = .ok (hugeConfig.sectorSize * hugeConfig.firstSector) ∧
    BuildImage exampleEnv hugeConfig []
      = (.ok (),
         [⟨.osRemove "out/default.img", none⟩,
          ⟨.osMkdirAll "out", none⟩,
          ⟨.diskfsCreate "out/default.img" (-9223372036854775808) 512, none⟩,
          ⟨.partition ⟨[], false⟩, none⟩]) ∧
    (-9223372036854775808 : Int) ≠ ((hugeConfig.sectorSize * hugeConfig.firstSector : Nat) : Int) := by
  refine ⟨by decide, by decide, rfl, rfl, by decide⟩

/-- Claim C3: for a sector size of 512 or 4096, any first sector and any
partitions (whatever their sizes, the empty list included), the total size
`BuildImage` computes in `uint64` arithmetic is a multiple of the sector size,
and it is the value every `diskfs.Create` call of the run receives, converted
to `int64`. -/
theorem size_sector_multiple (env : Env) (config : Configuration) (sizes : List Nat)
    (hS : config.sectorSize = 512 ∨ config.sectorSize = 4096)
    (hsizes : config.partitions.map (fun p => p.ops.size) = sizes.map Except.ok) :
    ∃ total, BuildImage.size config = .ok total ∧ config.sectorSize ∣ total ∧
      ∀ path size sectorSize err,
        (⟨.diskfsCreate path size sectorSize, err⟩ : Call) ∈ (BuildImage env config []).2 →
        size = int64 total := by
  have hpos : 0 < config.sectorSize := by rcases hS with h | h <;> rw [h] <;> decide
  have hdvd : config.sectorSize ∣ 2 ^ 64 := by
    rcases hS with h | h <;> rw [h]
    · exact ⟨2 ^ 55, by norm_num⟩
    · exact ⟨2 ^ 52, by norm_num⟩
  have hstart : config.sectorSize ∣ u64mul config.sectorSize config.firstSector := by
    unfold u64mul
    exact (Nat.dvd_mod_iff hdvd).2 (Dvd.intro _ rfl)
  obtain ⟨total, ht, hd⟩ :=
    sizeLoop_dvd config.sectorSize hpos hdvd config.partitions sizes _ hsizes hstart
  refine ⟨total, ht, hd, ?_⟩
  intro path size sectorSize err hmem
  obtain ⟨evs, he, hall⟩ := BuildImage_emits env config []
  rw [he, List.nil_append] at hmem
  obtain ⟨-, -, total2, ht2, hsz⟩ := hall _ hmem
  have : BuildImage.size config = .ok total := ht
  rw [this] at ht2
  simp only [Except.ok.injEq] at ht2
  rw [hsz, ← ht2]

theorem size_sector_multiple_witness :
    (twoPartConfig.sectorSize = 512 ∨ twoPartConfig.sectorSize = 4096) ∧
    ∃ total, BuildImage.size twoPartConfig = .ok total ∧ 512 ∣ total := by
  obtain ⟨total, h1, h2, -⟩ :=
    size_sector_multiple exampleEnv twoPartConfig [1000, 16777216] (Or.inl rfl) rfl
  exact ⟨Or.inl rfl, total, h1, h2⟩

/-- Claim C4 fails on the code: `PutFile` and `PutDir` append to the variable
`fspart` their closure captured and never touch the configuration, whose
partition holds the copy of `fspart` made when the partition was appended.
After `NewFsPartition("DATA", ...)` and `PutFile("local.txt", "/remote.txt")`
the partition in the configuration has no content entry and the build makes no
call that creates or writes `/remote.txt`. -/
theorem putFile_not_in_config :
    (∀ st handle src dest,
      (PutFile st handle src dest).config = st.config ∧
      (PutDir st handle src dest).config = st.config) ∧
    putFileScript.fspart = [⟨16777216, 0, [⟨"local.txt", "/remote.txt", false⟩]⟩] ∧
    putFileScript.config.partitions
      = [⟨"DATA", "00000000-0000-0000-0000-000000000000", .fs ⟨16777216, 0, []⟩⟩] ∧
    BuildImage exampleEnv putFileScript.config []
      = (.ok (),
         [⟨.osRemove "out/default.img", none⟩,
          ⟨.osMkdirAll "out", none⟩,
          ⟨.diskfsCreate "out/default.img" 17825792 512, none⟩,
          ⟨.partition ⟨[⟨2048, 34816, "00000000-0000-0000-0000-000000000000", "DATA"⟩], false⟩,
            none⟩,
          ⟨.createFilesystem 1 0, none⟩]) :=
  ⟨fun _ _ _ _ => ⟨rfl, rfl⟩, rfl, rfl, rfl⟩

set_option maxRecDepth 100000 in
/-- Claim C5 as stated fails: with a boot-sector file of 441 bytes the build
panics on the size check only after the partition table has been submitted and
the partition has been written. -/
theorem bootsector_too_large_counterexample :
    BuildImage exampleEnv { rawConfig with bootsector := "boot441.bin" } []
      = (.error (.bootsectorTooLarge 441),
         [⟨.osRemove "out/default.img", none⟩,
          ⟨.osMkdirAll "out", none⟩,
          ⟨.diskfsCreate "out/default.img" 1049600 512, none⟩,
          ⟨.partition ⟨[⟨2048, 2050, "C12A7328-F81F-11D2-BA4B-00A0C93EC93B", "boot"⟩], false⟩,
            none⟩,
          ⟨.writePartitionContents 1 "kernel.bin", none⟩,
          ⟨.osFileClose "kernel.bin", none⟩]) := by
  rfl

/-- Claim C5, amended: for a configuration whose boot-sector file is longer
than 440 bytes `BuildImage` panics, and no `WriteAt` call is made in the run.
The size check is the last step: when the steps before it succeed, the panic
is the size panic with the byte count, the trace is that of the whole build
without boot sector, the partition table has been submitted and the write of
every partition has been started. -/
theorem bootsector_too_large (env : Env) (config : Configuration) (data : Bytes)
    (hb : config.bootsector ≠ "")
    (hstat : env.stat config.bootsector = some (.file data))
    (hlen : 440 < data.length) :
    (∃ p, (BuildImage env config []).1 = .error p) ∧
    (∀ c ∈ (BuildImage env config []).2, ∀ b off, c.op ≠ .writeAt b off) ∧
    (∀ tr, BuildImage env { config with bootsector := "" } [] = (.ok (), tr) →
      BuildImage env config [] = (.error (.bootsectorTooLarge data.length), tr) ∧
      (∃ gs, BuildImage.gptPartitions config = .ok gs ∧
        (⟨.partition ⟨gs, config.pmbr⟩, none⟩ : Call) ∈ tr) ∧
      (∀ i p, config.partitions[i]? = some p → ∃ c ∈ tr, c.op.startsPartition (i + 1))) := by
  have hrun : BuildImage env config []
      = match BuildImage env { config with bootsector := "" } [] with
        | (.ok _, tr1) => (.error (.bootsectorTooLarge data.length), tr1)
        | (.error p, tr1) => (.error p, tr1) := by
    rw [BuildImage_eq, Build.bind_apply]
    rcases BuildImage env { config with bootsector := "" } [] with ⟨r, tr1⟩
    cases r with
    | error p => rfl
    | ok u => exact bootsectorStep_large env config data hb hstat hlen tr1
  refine ⟨?_, ?_, ?_⟩
  · rw [hrun]
    rcases BuildImage env { config with bootsector := "" } [] with ⟨r, tr1⟩
    cases r with
    | error p => exact ⟨p, rfl⟩
    | ok u => exact ⟨_, rfl⟩
  · intro c hc b off hop
    obtain ⟨evs, he, hall⟩ := BuildImage_emits env config []
    rw [he, List.nil_append] at hc
    have hallowed := hall c hc
    unfold BuildImage.Allowed at hallowed
    rw [hop] at hallowed
    obtain ⟨-, hst, hle⟩ := hallowed
    rw [hstat] at hst
    simp only [Option.some.injEq, HostNode.file.injEq] at hst
    subst hst
    apply hle
    unfold MaxBootsectorSize
    omega
  · intro tr htr
    rw [hrun, htr]
    obtain ⟨gs, hg, hmem, hstart⟩ := BuildImage_ok_partition htr
    exact ⟨rfl, ⟨gs, hg, hmem⟩, hstart⟩

set_option maxRecDepth 100000 in
theorem bootsector_too_large_witness :
    ∃ p, (BuildImage exampleEnv { rawConfig with bootsector := "boot441.bin" } []).1
      = .error p :=
  (bootsector_too_large exampleEnv { rawConfig with bootsector := "boot441.bin" }
    (List.replicate 441 0) (by decide) rfl (by simp)).1

/-- Claim C6: for a configuration with a boot-sector file of `len ≤ 440` bytes
whose earlier build steps succeed, `BuildImage` does not panic on the size
check and its last call is the `WriteAt` of exactly those bytes at offset 0;
when that write succeeds the build succeeds, the first `len` bytes of the
image are the boot-sector input, and every byte at an offset `≥ len` is what
it was before the patch. -/
theorem bootsector_patched (env : Env) (config : Configuration) (data : Bytes)
    (pre : List Call)
    (hb : config.bootsector ≠ "")
    (hstat : env.stat config.bootsector = some (.file data))
    (hlen : data.length ≤ 440)
    (hpre : BuildImage env { config with bootsector := "" } [] = (.ok (), pre)) :
    (BuildImage env config []).2
      = pre ++ [⟨.writeAt data 0, env.respond pre (.writeAt data 0)⟩] ∧
    (∀ n, (BuildImage env config []).1 ≠ .error (.bootsectorTooLarge n)) ∧
    (env.respond pre (.writeAt data 0) = none →
      (BuildImage env config []).1 = .ok () ∧
      ∀ (codec : Bytes → Call → Bytes) (img : Bytes),
        (imageAfter codec img (BuildImage env config []).2).take data.length = data ∧
        ∀ k, data.length ≤ k →
          (imageAfter codec img (BuildImage env config []).2)[k]?
            = (imageAfter codec img pre)[k]?) := by
  have hrun : BuildImage env config []
      = (match env.respond pre (.writeAt data 0) with
          | none => .ok ()
          | some e => .error (.callError (.writeAt data 0) e),
         pre ++ [⟨.writeAt data 0, env.respond pre (.writeAt data 0)⟩]) := by
    rw [BuildImage_eq, Build.bind_apply, hpre]
    exact bootsectorStep_small env config data hb hstat hlen pre
  refine ⟨by rw [hrun], ?_, ?_⟩
  · intro n
    rw [hrun]
    cases env.respond pre (.writeAt data 0) <;> simp
  · intro hok
    rw [hrun, hok]
    refine ⟨rfl, fun codec img => ?_⟩
    rw [imageAfter_append]
    simp only [imageStep, WriteAt_zero]
    refine ⟨by simp, fun k hk => ?_⟩
    rw [List.getElem?_append_right hk, List.getElem?_drop]
    congr 1
    omega

set_option maxRecDepth 100000 in
theorem bootsector_patched_witness :
    (List.replicate 440 144 : Bytes).length ≤ 440 ∧
    (BuildImage exampleEnv { rawConfig with bootsector := "boot440.bin" } []).1 = .ok () ∧
    ∀ img : Bytes,
      (imageAfter (fun b _ => b) img
        (BuildImage exampleEnv { rawConfig with bootsector := "boot440.bin" } []).2).take 440
        = List.replicate 440 144 := by
  obtain ⟨-, -, h3⟩ :=
    bootsector_patched exampleEnv { rawConfig with bootsector := "boot440.bin" }
      (List.replicate 440 144) (BuildImage exampleEnv rawConfig []).2 (by decide) rfl
      (by simp) rfl
  obtain ⟨h4, h5⟩ := h3 rfl
  refine ⟨by simp, h4, fun img => ?_⟩
  have := (h5 (fun b _ => b) img).1
  simpa using this

/-- The two ways `FSPartitionOperations.write` goes on after `CreateFilesystem`. -/
theorem fsWrite_eq (env : Env) (part : FSPartitionOperations) (index : Nat) (tr : List Call) :
    part.write env index tr
      = match env.respond tr (.createFilesystem index part.fsType) with
        | none =>
          writeContents env index part.contents
            (tr ++ [⟨.createFilesystem index part.fsType, none⟩])
        | some err =>
          (.error (.callError (.createFilesystem index part.fsType) err),
           tr ++ [⟨.createFilesystem index part.fsType, some err⟩]) := by
  unfold FSPartitionOperations.write
  rw [Build.bind_apply, Build.call_eq]
  cases env.respond tr (.createFilesystem index part.fsType) <;> rfl

/-- Claim C7: when every filesystem call succeeds and the whole source tree can
be read, `FSPartitionOperations.write` of one recursive entry `(src, dest)`
succeeds; after `CreateFilesystem` its calls other than `Mkdir` are, for each
file of the tree in listing order, one `OpenFile`, `Write` of the file's bytes
and `Close` at the path joined from `dest` and the file's relative path; and
for every file these calls come after a `Mkdir` of every directory between
`dest` and the file, `dest` included. -/
theorem recursive_entry_complete (env : Env) (part : FSPartitionOperations) (index : Nat)
    (src dest : String) (tree : DirEntries) (tr : List Call)
    (hresp : ∀ tr op, env.respond tr op = none)
    (hcontents : part.contents = [⟨src, dest, true⟩])
    (hstat : env.stat src = some (.dir tree))
    (hread : tree.Readable) :
    ∃ evs : List Call,
      part.write env index tr
        = (.ok (), tr ++ ⟨.createFilesystem index part.fsType, none⟩ :: evs) ∧
      evs.filter (fun c => !c.op.isMkdir) = tree.files.flatMap (fileCalls env index dest) ∧
      ∀ p data, (p, data) ∈ tree.files → ∃ pre post,
        evs = pre ++ fileCalls env index dest (p, data) ++ post ∧
        ∀ q, q <+: p → q ≠ p → (⟨.fsMkdir index (joinRel env dest q), none⟩ : Call) ∈ pre := by
  obtain ⟨evs, h1, h2, h3⟩ := writeDirLoop_complete env hresp index tree src dest
    (tr ++ [⟨.createFilesystem index part.fsType, none⟩]) hread
  refine ⟨evs, ?_, h2, h3⟩
  rw [fsWrite_eq, hresp, hcontents]
  simp only [writeContents, writeContent, hstat, HostNode.IsDir, writeDir, Build.bind_apply]
  simp [h1, pure]

theorem recursive_entry_complete_witness :
    ∃ evs : List Call,
      FSPartitionOperations.write exampleEnv ⟨16777216, 0, [⟨"tree", "/d", true⟩]⟩ 1 []
        = (.ok (), ⟨.createFilesystem 1 0, none⟩ :: evs) ∧
      evs.filter (fun c => !c.op.isMkdir)
        = [⟨.fsOpenFile 1 "/d/a", none⟩, ⟨.fsFileWrite 1 "/d/a" [7], none⟩,
           ⟨.fsFileClose 1 "/d/a", none⟩,
           ⟨.fsOpenFile 1 "/d/sub/b", none⟩, ⟨.fsFileWrite 1 "/d/sub/b" [8], none⟩,
           ⟨.fsFileClose 1 "/d/sub/b", none⟩] := by
  obtain ⟨evs, h1, h2, -⟩ :=
    recursive_entry_complete exampleEnv ⟨16777216, 0, [⟨"tree", "/d", true⟩]⟩ 1 "tree" "/d"
      (.cons "a" (.file [7])
        (.cons "sub" (.dir (.cons "b" (.file [8]) .nil)) (.cons "empty" (.dir .nil) .nil)))
      [] (fun _ _ => rfl) rfl rfl
      (by simp [DirEntries.Readable, HostNode.Readable])
  exact ⟨evs, h1, h2⟩

/-- Claim C8: `FSPartitionOperations.write` panics with "expected a file, got
directory" when, the entries before it written, it reaches an entry whose
source is a directory and whose recursive flag is false; and whenever it
panics with that value it has reached such an entry, so never for an entry
whose source is a plain file or whose recursive flag is true. -/
theorem expected_file_panic (env : Env) (part : FSPartitionOperations) (index : Nat)
    (tr : List Call) :
    (∀ before e after tr1, part.contents = before ++ e :: after →
      FSPartitionOperations.write env { part with contents := before } index tr = (.ok (), tr1) →
      e.recursive = false →
      (∃ node, env.stat e.src = some node ∧ node.IsDir = true) →
      part.write env index tr = (.error .expectedFile, tr1)) ∧
    ((part.write env index tr).1 = .error .expectedFile →
      ∃ before e after tr1, part.contents = before ++ e :: after ∧
        FSPartitionOperations.write env { part with contents := before } index tr
          = (.ok (), tr1) ∧
        e.recursive = false ∧ ∃ node, env.stat e.src = some node ∧ node.IsDir = true) := by
  simp only [fsWrite_eq]
  cases env.respond tr (.createFilesystem index part.fsType) with
  | some err =>
    constructor
    · intro before e after tr1 _ hbefore
      simp at hbefore
    · intro h
      simp at h
  | none =>
    dsimp only
    constructor
    · intro before e after tr1 hc hbefore hrec hdir
      obtain ⟨node, hst, hd⟩ := hdir
      rw [hc, writeContents_append, Build.bind_apply, hbefore]
      dsimp only
      rw [writeContents, Build.bind_apply,
        writeContent_expectedFile_trace env index e tr1 hrec node hst hd]
    · intro h
      exact writeContents_expectedFile env index part.contents _ h

theorem expected_file_panic_witness :
    FSPartitionOperations.write exampleEnv
        ⟨16777216, 0, [⟨"local.txt", "/remote.txt", false⟩, ⟨"tree", "/d", false⟩,
          ⟨"tree", "/e", true⟩]⟩ 1 []
      = (.error .expectedFile,
         [⟨.createFilesystem 1 0, none⟩, ⟨.fsOpenFile 1 "/remote.txt", none⟩,
          ⟨.fsFileWrite 1 "/remote.txt" [104, 105], none⟩,
          ⟨.fsFileClose 1 "/remote.txt", none⟩]) :=
  (expected_file_panic exampleEnv
      ⟨16777216, 0, [⟨"local.txt", "/remote.txt", false⟩, ⟨"tree", "/d", false⟩,
        ⟨"tree", "/e", true⟩]⟩ 1 []).1
    [⟨"local.txt", "/remote.txt", false⟩] ⟨"tree", "/d", false⟩ [⟨"tree", "/e", true⟩] _
    rfl rfl rfl ⟨_, rfl, rfl⟩

/-- Claim C9 fails on the code: `RawPartitionOperations.write` drops what
`WritePartitionContents` returns and never panics.  When streaming into
partition 1 reports an error, the build goes on: partition 2 is written, the
boot sector is patched, and `BuildImage` ends without panic. -/
theorem raw_write_error_dropped :
    (∀ env part index tr, (RawPartitionOperations.write env part index tr).1 = .ok ()) ∧
    BuildImage failingStreamEnv twoRawConfig []
      = (.ok (),
         [⟨.osRemove "out/default.img", none⟩,
          ⟨.osMkdirAll "out", none⟩,
          ⟨.diskfsCreate "out/default.img" 1050624 512, none⟩,
          ⟨.partition ⟨[⟨2048, 2050, "00000000-0000-0000-0000-000000000000", "first"⟩,
              ⟨2050, 2052, "00000000-0000-0000-0000-000000000000", "second"⟩], false⟩, none⟩,
          ⟨.writePartitionContents 1 "a.bin", some .other⟩,
          ⟨.osFileClose "a.bin", none⟩,
          ⟨.writePartitionContents 2 "b.bin", none⟩,
          ⟨.osFileClose "b.bin", none⟩,
          ⟨.writeAt [235, 254, 144] 0, none⟩]) :=
  ⟨fun _ _ _ _ => rfl, rfl⟩

/-- Claim C10 fails on the code: `fs.Mkdir(destPath)` is called inside the loop
over the children, so for a source directory without children `writeDir` makes
no call at all and the destination directory is not created. -/
theorem empty_directory_not_created :
    (∀ env index srcPath destPath tr,
      writeDir env index srcPath (.dir .nil) destPath tr = (.ok (), tr)) ∧
    FSPartitionOperations.write exampleEnv ⟨16777216, 0, [⟨"empty", "/empty", true⟩]⟩ 1 []
      = (.ok (), [⟨.createFilesystem 1 0, none⟩]) :=
  ⟨fun _ _ _ _ _ => rfl, rfl⟩

end Mkimg
